import Mathlib

/-!
Shallow embedding of the `tickle` task-scanner (a Python CLI that scans a
directory tree for developer task markers such as TODO/FIXME and renders the
findings), together with proofs about the embedded functions.

Python strings are modelled as Lean `String`; operations that Python performs
on strings (containment, comparison, strip, lower, replace, split) are defined
below on the underlying character lists, mirroring Python's code-point
semantics.  Machine-level concerns do not arise: all integers in the source
are small non-negative line numbers and ranks, modelled as `Nat`.
-/

namespace Tickle

/-! ### Python string primitives -/

/-- Does the character list `p` occur at the very start of `s`?
Model of Python's `str.startswith` on the underlying code points. -/
def charsLead : List Char → List Char → Bool
  | [], _ => true
  | _ :: _, [] => false
  | a :: as, b :: bs => a = b && charsLead as bs

/-- Does `needle` occur as a contiguous run somewhere in `hay`?
Model of Python's `needle in hay` substring test. -/
def charsIn (needle : List Char) : List Char → Bool
  | [] => needle.isEmpty
  | h :: t => charsLead needle (h :: t) || charsIn needle t

/-- Python's `needle in hay` on strings (case-sensitive substring test). -/
def strIn (needle hay : String) : Bool := charsIn needle.data hay.data

/-- Python's `s.startswith(p)` on strings. -/
def strStartsWith (s p : String) : Bool := charsLead p.data s.data

/-- Strict lexicographic comparison of character lists by code point,
the order Python uses for `str < str`. -/
def charsLt : List Char → List Char → Bool
  | [], [] => false
  | [], _ :: _ => true
  | _ :: _, [] => false
  | a :: as, b :: bs => a.toNat < b.toNat || (a = b && charsLt as bs)

/-- Python's `a < b` on strings (lexicographic by code point). -/
def strLt (a b : String) : Bool := charsLt a.data b.data

/-- Python's `str.strip()`: the string with leading and trailing whitespace
removed (whitespace modelled by `Char.isWhitespace`). -/
def pyStrip (s : String) : String :=
  ⟨((s.data.dropWhile Char.isWhitespace).reverse.dropWhile Char.isWhitespace).reverse⟩

/-- Python's `str.lower()`, character by character. -/
def strLower (s : String) : String := ⟨s.data.map Char.toLower⟩

/-! ### Task model (`src/tickle/models.py`) -/

/-- One discovered marker occurrence: the dataclass `Task` of
`src/tickle/models.py`, with its five optional git-blame attribution
fields defaulting to `None`. -/
structure Task where
  file : String
  line : Nat
  marker : String
  text : String
  author : Option String := none
  author_email : Option String := none
  commit_hash : Option String := none
  commit_date : Option String := none
  commit_message : Option String := none
deriving DecidableEq

/-- The `MARKER_PRIORITY` dictionary of `src/tickle/models.py`
(lower number = higher priority). -/
def MARKER_PRIORITY : List (String × Nat) :=
  [("BUG", 0), ("FIXME", 1), ("TODO", 2), ("HACK", 3), ("NOTE", 4), ("CHECKBOX", 5)]

/-- The tuple returned by one of the two key functions produced by
`get_sort_key`: either the 4-tuple of the `"marker"` mode or the
2-tuple of the `"file"` mode. -/
inductive SortKey where
  | byMarker (priority : Nat) (marker : String) (file : String) (line : Nat)
  | byFile (file : String) (line : Nat)
deriving DecidableEq

/-- `get_sort_key` of `src/tickle/models.py`: for `"marker"` the key is
`(MARKER_PRIORITY.get(task.marker, 999), task.marker, task.file, task.line)`;
every other mode falls through to the `(task.file, task.line)` key. -/
def get_sort_key (sort_by : String) : Task → SortKey :=
  if sort_by = "marker" then
    fun task => .byMarker ((MARKER_PRIORITY.lookup task.marker).getD 999)
      task.marker task.file task.line
  else
    fun task => .byFile task.file task.line

/-- Python's tuple comparison `k1 <= k2` on sort keys: lexicographic, with
strings compared by code point.  The two key shapes never mix in a single
sort; across shapes the order is fixed arbitrarily (and totally). -/
def sortKeyLE : SortKey → SortKey → Bool
  | .byMarker p1 m1 f1 l1, .byMarker p2 m2 f2 l2 =>
      p1 < p2 || (p1 = p2 && (strLt m1 m2 || (m1 = m2 &&
        (strLt f1 f2 || (f1 = f2 && l1 ≤ l2)))))
  | .byFile f1 l1, .byFile f2 l2 => strLt f1 f2 || (f1 = f2 && l1 ≤ l2)
  | .byMarker _ _ _ _, .byFile _ _ => true
  | .byFile _ _, .byMarker _ _ _ _ => false

/-- Python's stable `list.sort(key=...)`, modelled by the (stable) merge
sort of the key comparison. -/
def pySortByKey (key : Task → SortKey) (tasks : List Task) : List Task :=
  tasks.mergeSort (fun a b => sortKeyLE (key a) (key b))

/-! ### Comment-marker detector (`src/tickle/detectors.py`) -/

/-- `DEFAULT_TASK_MARKERS` of `src/tickle/detectors.py`. -/
def DEFAULT_TASK_MARKERS : List String := ["TODO", "FIXME", "BUG", "NOTE", "HACK"]

/-- `CommentMarkerDetector.detect`: walk the configured marker list in order
and return a single Task for the first marker that occurs as a substring of
the line; return the empty list when no marker occurs. -/
def commentMarkerDetect (markers : List String) (line : String) (line_num : Nat)
    (filepath : String) : List Task :=
  match markers with
  | [] => []
  | marker :: rest =>
      if strIn marker line then
        [{ file := filepath, line := line_num, marker := marker, text := pyStrip line }]
      else
        commentMarkerDetect rest line line_num filepath

/-! ### Markdown-checkbox and composite detectors

The classes `MarkdownCheckboxDetector` and `CompositeDetector` are imported by
`src/tickle/scanner.py` from `tickle.detectors` but their definitions are not
part of the provided sources; they are modelled here from the spec. -/

/-- Modelled from the spec: the unchecked-checkbox pattern recognized by the
missing `MarkdownCheckboxDetector` — a list-item marker (a bullet `-`, `*` or
`+` after optional indentation, followed by whitespace) followed by `[ ]`.
A checked box `[x]` does not match. -/
def isUncheckedCheckbox (line : String) : Bool :=
  match line.data.dropWhile Char.isWhitespace with
  | b :: c :: rest =>
      (b = '-' || b = '*' || b = '+') && c.isWhitespace &&
        charsLead ['[', ' ', ']'] (rest.dropWhile Char.isWhitespace)
  | _ => false

/-- Modelled from the spec: `MarkdownCheckboxDetector.detect` (missing from the
provided sources) — emit one Task with marker `"CHECKBOX"` when the line
matches the unchecked-checkbox pattern, nothing otherwise. -/
def markdownCheckboxDetect (line : String) (line_num : Nat) (filepath : String) :
    List Task :=
  if isUncheckedCheckbox line then
    [{ file := filepath, line := line_num, marker := "CHECKBOX", text := pyStrip line }]
  else
    []

/-- The detector hierarchy of `tickle.detectors`: comment-marker detector
(holding its configured marker list), markdown-checkbox detector, and the
composite detector (holding its ordered sub-detectors). -/
inductive Detector where
  | comment (markers : List String)
  | checkbox
  | composite (detectors : List Detector)

mutual

/-- `detect` dispatched over the detector variants.  The composite case is
modelled from the spec: the missing `CompositeDetector.detect` concatenates
the sub-detectors' results in list order. -/
def Detector.detect : Detector → String → Nat → String → List Task
  | .comment markers, line, n, f => commentMarkerDetect markers line n f
  | .checkbox, line, n, f => markdownCheckboxDetect line n f
  | .composite ds, line, n, f => Detector.detectAll ds line n f

/-- Fold of `detect` over a composite's sub-detector list, in order. -/
def Detector.detectAll : List Detector → String → Nat → String → List Task
  | [], _, _, _ => []
  | d :: ds, line, n, f => d.detect line n f ++ Detector.detectAll ds line n f

end

/-- The effective detector constructed by `scan_directory` when no explicit
detector is supplied (lines 70–81 of `src/tickle/scanner.py`): a comment
detector from `markers` (`CommentMarkerDetector` falls back to
`DEFAULT_TASK_MARKERS` when `markers is None`), plus a checkbox detector when
`markers is None or "CHECKBOX" in markers`, combined in a composite.  An
explicit detector is used verbatim. -/
def effectiveDetector (markers : Option (List String)) (detector : Option Detector) :
    Detector :=
  match detector with
  | some d => d
  | none =>
      let comment_detector := Detector.comment (markers.getD DEFAULT_TASK_MARKERS)
      let detectors := [comment_detector] ++
        (if markers.isNone || (markers.getD []).contains "CHECKBOX" then
          [Detector.checkbox] else [])
      Detector.composite detectors

/-! ### Shell-glob matching (model of `fnmatch.fnmatch`)

`_should_ignore_path` matches paths against shell-glob patterns (`*`, `?`,
`[...]`, `[!...]`; an unclosed `[` is literal; the first character of a class,
even `]`, belongs to the class). -/

/-- Scan a bracket class body for its closing `]`, returning the content before
it and the remainder after it; `none` when the class is never closed. -/
def scanClassClose : List Char → Option (List Char × List Char)
  | [] => none
  | ']' :: t => some ([], t)
  | c :: t =>
      match scanClassClose t with
      | none => none
      | some (content, rest) => some (c :: content, rest)

/-- Parse a bracket class given the pattern characters after `[`:
optional leading `!` negation, then a class body whose first character is
always literal, closed by `]`.  Returns `none` when the class is unclosed. -/
def parseClass (p : List Char) : Option (Bool × List Char × List Char) :=
  match p with
  | '!' :: p1 =>
      (match p1 with
       | [] => none
       | c :: t =>
           match scanClassClose t with
           | none => none
           | some (content, rest) => some (true, c :: content, rest))
  | _ =>
      (match p with
       | [] => none
       | c :: t =>
           match scanClassClose t with
           | none => none
           | some (content, rest) => some (false, c :: content, rest))

/-- Does a bracket-class body (with `a-z` ranges; a trailing `-` is literal)
contain the character `c`? -/
def classHas : List Char → Char → Bool
  | a :: '-' :: b :: rest, c =>
      (a.toNat ≤ c.toNat && c.toNat ≤ b.toNat) || classHas rest c
  | a :: rest, c => a = c || classHas rest c
  | [], _ => false

/-- One compiled glob-pattern token. -/
inductive GlobTok where
  | lit (c : Char)
  | anyOne
  | anySeq
  | cls (neg : Bool) (content : List Char)

theorem scanClassClose_shrinks :
    ∀ p content rest, scanClassClose p = some (content, rest) →
      rest.length < p.length := by
  intro p
  induction p with
  | nil => intro _ _ h; simp [scanClassClose] at h
  | cons c t ih =>
      intro content rest h
      by_cases hc : c = ']'
      · subst hc
        simp [scanClassClose] at h
        simp [← h.2] <;> omega
      · rw [show scanClassClose (c :: t) =
              (match scanClassClose t with
               | none => none
               | some (content, rest) => some (c :: content, rest)) by
            cases c <;> simp_all [scanClassClose]] at h
        cases ht : scanClassClose t with
        | none => rw [ht] at h; simp at h
        | some v =>
            rw [ht] at h
            cases v with
            | mk vc vr =>
                simp at h
                have := ih vc vr ht
                simp [← h.2] <;> omega

theorem parseClass_shrinks :
    ∀ p neg content rest, parseClass p = some (neg, content, rest) →
      rest.length < p.length + 1 := by
  intro p neg content rest h
  unfold parseClass at h
  split at h
  · rename_i p1
    cases p1 with
    | nil => simp at h
    | cons c t =>
        simp only [] at h
        cases ht : scanClassClose t with
        | none => rw [ht] at h; simp at h
        | some v =>
            rw [ht] at h
            cases v with
            | mk vc vr =>
                simp at h
                have := scanClassClose_shrinks t vc vr ht
                simp [← h.2.2] <;> omega
  · rename_i hne
    cases p with
    | nil => simp at h
    | cons c t =>
        simp only [] at h
        cases ht : scanClassClose t with
        | none => rw [ht] at h; simp at h
        | some v =>
            rw [ht] at h
            cases v with
            | mk vc vr =>
                simp at h
                have := scanClassClose_shrinks t vc vr ht
                simp [← h.2.2] <;> omega

/-- Compile a glob pattern into a token list (the model of
`fnmatch.translate`'s treatment of `*`, `?`, `[...]`). -/
def globTokens : List Char → List GlobTok
  | [] => []
  | '*' :: t => .anySeq :: globTokens t
  | '?' :: t => .anyOne :: globTokens t
  | '[' :: t =>
      match h : parseClass t with
      | none => .lit '[' :: globTokens t
      | some (neg, content, rest) =>
          .cls neg content :: globTokens rest
  | c :: t => .lit c :: globTokens t
termination_by p => p.length
decreasing_by
  all_goals first
    | (simp <;> omega)
    | (have hcls := parseClass_shrinks _ _ _ _ h
       simp <;> omega)

/-- Match a compiled glob pattern against a character list (anchored at both
ends, as `fnmatch` is). -/
def globMatch : List GlobTok → List Char → Bool
  | [], [] => true
  | [], _ :: _ => false
  | .anySeq :: ps, s =>
      globMatch ps s ||
        (match s with
         | [] => false
         | _ :: cs => globMatch (.anySeq :: ps) cs)
  | .anyOne :: _, [] => false
  | .anyOne :: ps, _ :: cs => globMatch ps cs
  | .lit _ :: _, [] => false
  | .lit p :: ps, c :: cs => p = c && globMatch ps cs
  | .cls _ _ :: _, [] => false
  | .cls neg content :: ps, c :: cs =>
      (neg != classHas content c) && globMatch ps cs
termination_by ps s => ps.length + s.length

/-- Python's `fnmatch.fnmatch(s, pattern)` (case-preserving, as on POSIX). -/
def fnmatchB (s pattern : String) : Bool :=
  globMatch (globTokens pattern.data) s.data

/-! ### Paths and the directory scan (`src/tickle/scanner.py`)

A filesystem path is modelled by its `pathlib` component list (`Path.parts`);
a scanned tree is modelled by the list of its regular files in traversal
order.  Reading a file is line-buffered and can fail at any point: a file is
therefore modelled by the lines that decode successfully before the read
either reaches EOF or raises, together with a flag recording whether it
raised.  Directories contribute nothing to a scan (the loop skips them), so
they are not represented. -/

/-- `BINARY_EXTENSIONS` of `src/tickle/scanner.py`. -/
def BINARY_EXTENSIONS : List String :=
  [".png", ".jpg", ".jpeg", ".exe", ".bin", ".so", ".dll", ".pyc"]

/-- The final path component (`Path.name`), `""` for an empty part list. -/
def pathName (parts : List String) : String := parts.getLast?.getD ""

/-- The rendered path (`str(filepath)` with `/` separators). -/
def pathStr (parts : List String) : String := String.intercalate "/" parts

/-- Index of the last `.` in a character list (`str.rfind('.')`),
`none` when absent. -/
def lastDotIdx : List Char → Option Nat
  | [] => none
  | c :: cs =>
      match lastDotIdx cs with
      | some i => some (i + 1)
      | none => if c = '.' then some 0 else none

/-- `pathlib`'s `Path.suffix` of a file name: the part from the last `.` on,
but `""` when the dot is absent, leading, or trailing. -/
def pySuffix (name : String) : String :=
  match lastDotIdx name.data with
  | some i => if 0 < i && i + 1 < name.data.length then ⟨name.data.drop i⟩ else ""
  | none => ""

/-- `_should_ignore_path` of `src/tickle/scanner.py`, on the path's component
list: when `ignore_hidden` is set, any component that starts with `.` and is
not the bare `.` forces a skip; otherwise the path is matched against each
ignore pattern, both as `*pattern*` against the full rendered path and as
`pattern` against the bare file name. -/
def _should_ignore_path (parts : List String) (ignore_patterns : List String)
    (ignore_hidden : Bool) : Bool :=
  if ignore_hidden && parts.any (fun part => strStartsWith part "." && part != ".") then
    true
  else if ignore_patterns.isEmpty then
    false
  else
    ignore_patterns.any (fun pattern =>
      fnmatchB (pathStr parts) ("*" ++ pattern ++ "*") || fnmatchB (pathName parts) pattern)

/-- One regular file of the scanned tree: its full component list (as
`Path.parts` yields it, root components included), the lines that decode
successfully as UTF-8 text before the read ends, and whether it ends in an
exception (open failure or `UnicodeDecodeError`) rather than EOF.  A file
that cannot even be opened has `goodLines = []` and `readError = true`; a
file whose decoding fails partway has the decoded prefix in `goodLines`. -/
structure FsFile where
  parts : List String
  goodLines : List String
  readError : Bool
deriving DecidableEq

/-- The inner line loop of `scan_directory`: `enumerate(f, start=1)` feeding
each line to the detector and concatenating the results. -/
def detectLines (detector : Detector) (filepath : String) : Nat → List String → List Task
  | _, [] => []
  | n, line :: rest =>
      detector.detect line n filepath ++ detectLines detector filepath (n + 1) rest

/-- The body of `scan_directory`'s file loop for one regular file: skip it
when its (lower-cased) suffix is a binary extension or when
`_should_ignore_path` says so; otherwise run the detector over the numbered
lines the read yields.  `results.extend(tasks)` sits inside the `try`, so the
tasks of every successfully decoded line are kept even when a later line
raises — the `except Exception: pass` only abandons the rest of the file, and
the result does not depend on `readError`. -/
def scanOneFile (detector : Detector) (ignore_patterns : List String)
    (ignore_hidden : Bool) (f : FsFile) : List Task :=
  if BINARY_EXTENSIONS.contains (strLower (pySuffix (pathName f.parts))) then
    []
  else if _should_ignore_path f.parts ignore_patterns ignore_hidden then
    []
  else
    detectLines detector (pathStr f.parts) 1 f.goodLines

/-- `scan_directory` of `src/tickle/scanner.py` over the modelled tree:
build the effective detector, accumulate each file's tasks in traversal
order, and sort the collection by the key selected by `sort_by`. -/
def scan_directory (files : List FsFile) (markers : Option (List String) := none)
    (ignore_patterns : List String := []) (detector : Option Detector := none)
    (sort_by : String := "file") (ignore_hidden : Bool := true) : List Task :=
  let det := effectiveDetector markers detector
  let results := (files.map (scanOneFile det ignore_patterns ignore_hidden)).flatten
  pySortByKey (get_sort_key sort_by) results

/-! ### Output formatters (`src/tickle/output.py`) -/

/-- Python's `str.replace(old, new)` for a non-empty `old`: replace every
non-overlapping occurrence, scanning left to right.  (`TextFormatter` only
ever replaces the bracketed marker `"[" + marker + "]"`, which is never
empty.) -/
def pyReplaceChars (old new : List Char) : List Char → List Char
  | [] => []
  | c :: cs =>
      if old ≠ [] ∧ charsLead old (c :: cs) then
        new ++ pyReplaceChars old new ((c :: cs).drop old.length)
      else
        c :: pyReplaceChars old new cs
termination_by s => s.length
decreasing_by
  · rename_i hgu
    cases old with
    | nil => exact absurd rfl hgu.1
    | cons o os => simp [List.length_drop] <;> omega
  · simp <;> omega

/-- Python's `str.replace` on strings (non-empty `old`). -/
def pyReplace (s old new : String) : String := ⟨pyReplaceChars old.data new.data s.data⟩

/-- Decimal rendering of a non-negative integer, as Python's `str(int)`
produces it (most significant digit first). -/
def natChars (n : Nat) : List Char :=
  if n < 10 then [Nat.digitChar n] else natChars (n / 10) ++ [Nat.digitChar (n % 10)]
decreasing_by exact Nat.div_lt_self (by omega) (by omega)

/-- Python's `str(n)` for a non-negative `n`. -/
def natStr (n : Nat) : String := ⟨natChars n⟩

/-- `Task.__str__` of `src/tickle/models.py`. -/
def taskStr (t : Task) : String :=
  t.file ++ ":" ++ natStr t.line ++ ": [" ++ t.marker ++ "] " ++ t.text

/-- The `colorama` ANSI codes used by `MARKER_COLORS` in
`src/tickle/output.py`. -/
def FORE_BLUE : String := "\x1b[34m"

/-- `colorama.Fore.YELLOW`. -/
def FORE_YELLOW : String := "\x1b[33m"

/-- `colorama.Fore.RED`. -/
def FORE_RED : String := "\x1b[31m"

/-- `colorama.Fore.CYAN`. -/
def FORE_CYAN : String := "\x1b[36m"

/-- `colorama.Fore.MAGENTA`. -/
def FORE_MAGENTA : String := "\x1b[35m"

/-- `colorama.Fore.GREEN`. -/
def FORE_GREEN : String := "\x1b[32m"

/-- `colorama.Fore.WHITE`. -/
def FORE_WHITE : String := "\x1b[37m"

/-- `colorama.Fore.LIGHTBLACK_EX`. -/
def FORE_LIGHTBLACK_EX : String := "\x1b[90m"

/-- `colorama.Style.RESET_ALL`. -/
def STYLE_RESET_ALL : String := "\x1b[0m"

/-- The `MARKER_COLORS` mapping of `src/tickle/output.py`. -/
def MARKER_COLORS : List (String × String) :=
  [("TODO", FORE_BLUE), ("FIXME", FORE_YELLOW), ("BUG", FORE_RED),
   ("NOTE", FORE_CYAN), ("HACK", FORE_MAGENTA), ("CHECKBOX", FORE_GREEN)]

/-- Python truthiness of an optional string (`if task.author:` is false both
for `None` and for the empty string). -/
def optTruthy (o : Option String) : Bool := o.getD "" != ""

/-- Python's `s[:7]` (short commit hash). -/
def strTake (n : Nat) (s : String) : String := ⟨s.data.take n⟩

/-- `TextFormatter._format_git_info`: the attribution fragment appended to a
task line.  The external `humanize.naturaltime ∘ datetime.fromisoformat`
collaborator is passed in as a function; `none` models the swallowed
`ValueError`/`TypeError` of an unparsable date. -/
def formatGitInfo (naturaltime : String → Option String) (git_verbose : Bool)
    (t : Task) : String :=
  let parts : List String :=
    (if optTruthy t.author then ["by " ++ t.author.getD ""] else []) ++
    (if optTruthy t.commit_date then
        (match naturaltime (t.commit_date.getD "") with
         | some rel => [rel]
         | none => [])
      else []) ++
    (if git_verbose then
        (if optTruthy t.commit_hash then
            ["(" ++ strTake 7 (t.commit_hash.getD "") ++ ")"] else []) ++
        (if optTruthy t.commit_message then
            ["\"" ++ t.commit_message.getD "" ++ "\""] else [])
      else [])
  String.intercalate ", " parts

/-- One output line of `TextFormatter.format`: `str(task)` with the bracketed
marker wrapped in its ANSI color, plus a dimmed attribution fragment when the
task has an author. -/
def textFormatLine (naturaltime : String → Option String) (git_verbose : Bool)
    (t : Task) : String :=
  let task_str := taskStr t
  let color := (MARKER_COLORS.lookup t.marker).getD FORE_WHITE
  let colored_str := pyReplace task_str ("[" ++ t.marker ++ "]")
    (color ++ "[" ++ t.marker ++ "]" ++ STYLE_RESET_ALL)
  if optTruthy t.author then
    colored_str ++ " " ++ FORE_LIGHTBLACK_EX ++
      formatGitInfo naturaltime git_verbose t ++ STYLE_RESET_ALL
  else
    colored_str

/-- `TextFormatter.format`: the fixed sentinel for an empty task list,
otherwise the newline-join of the per-task lines. -/
def textFormat (naturaltime : String → Option String) (git_verbose : Bool)
    (tasks : List Task) : String :=
  if tasks.isEmpty then
    "No tasks found!"
  else
    String.intercalate "\n" (tasks.map (textFormatLine naturaltime git_verbose))

/-! ### JSON formatter (`Task.to_dict` and `JSONFormatter.format`) -/

/-- The JSON values that `Task.to_dict` can produce (plus `jnull`, needed to
state that no null ever appears). -/
inductive JVal where
  | jstr (s : String)
  | jnum (n : Nat)
  | jnull
  | jarr (items : List JVal)
  | jobj (fields : List (String × JVal))

/-- `Task.to_dict` of `src/tickle/models.py`: the four mandatory keys in
declaration order, then each attribution key appended only when the field is
not `None`. -/
def Task.to_dict (t : Task) : List (String × JVal) :=
  [("file", .jstr t.file), ("line", .jnum t.line),
   ("marker", .jstr t.marker), ("text", .jstr t.text)] ++
  (match t.author with | some a => [("author", .jstr a)] | none => []) ++
  (match t.author_email with | some a => [("author_email", .jstr a)] | none => []) ++
  (match t.commit_hash with | some a => [("commit_hash", .jstr a)] | none => []) ++
  (match t.commit_date with | some a => [("commit_date", .jstr a)] | none => []) ++
  (match t.commit_message with | some a => [("commit_message", .jstr a)] | none => [])

/-- The JSON document `JSONFormatter.format` serializes: the array of the
tasks' dictionaries, in task order. -/
def jsonDocument (tasks : List Task) : JVal :=
  .jarr (tasks.map (fun t => .jobj t.to_dict))

/-! ### C1: the comment-marker detector -/

/-- C1.  For every marker list `M` and line `L`, `CommentMarkerDetector.detect`
returns at most one Task; any returned Task's marker occurs as a case-sensitive
substring of `L` and is the first element of `M` in configured list order that
does (every earlier element does not occur in `L`), its text is `L` with
surrounding whitespace stripped, its file is `f` and its line is `n`; and when
no element of `M` occurs in `L` (in particular when `M` is empty) the result
is the empty list. -/
theorem C1_comment_detector_spec (M : List String) (L : String) (n : Nat) (f : String) :
    (commentMarkerDetect M L n f).length ≤ 1 ∧
    (∀ t, t ∈ commentMarkerDetect M L n f →
      strIn t.marker L = true ∧
      (∃ pre post, M = pre ++ t.marker :: post ∧ ∀ m ∈ pre, strIn m L = false) ∧
      t.text = pyStrip L ∧ t.file = f ∧ t.line = n) ∧
    ((∀ m ∈ M, strIn m L = false) → commentMarkerDetect M L n f = []) := by
  induction M with
  | nil => simp [commentMarkerDetect]
  | cons m rest ih =>
      by_cases hm : strIn m L = true
      · refine ⟨by simp [commentMarkerDetect, hm], ?_, ?_⟩
        · intro t ht
          simp [commentMarkerDetect, hm] at ht
          subst ht
          exact ⟨hm, ⟨[], rest, rfl, by simp⟩, rfl, rfl, rfl⟩
        · intro hall
          have := hall m (by simp)
          rw [hm] at this
          cases this
      · have hm' : strIn m L = false := by simpa using hm
        refine ⟨?_, ?_, ?_⟩
        · simpa [commentMarkerDetect, hm'] using ih.1
        · intro t ht
          rw [commentMarkerDetect] at ht
          simp [hm'] at ht
          obtain ⟨hin, ⟨pre, post, hM, hpre⟩, hrest⟩ := ih.2.1 t ht
          refine ⟨hin, ⟨m :: pre, post, by rw [hM]; rfl, ?_⟩, hrest⟩
          intro x hx
          rcases List.mem_cons.mp hx with hx | hx
          · subst hx; exact hm'
          · exact hpre x hx
        · intro hall
          rw [commentMarkerDetect]
          simp [hm']
          exact ih.2.2 (fun x hx => hall x (List.mem_cons_of_mem m hx))

/-- Witness for C1 at a concrete input: on the line `"# TODO then FIXME"` with
markers `["FIXME", "TODO"]` the detector yields the configured-order-first
marker `FIXME`, and its membership hypothesis is discharged by computation. -/
theorem C1_comment_detector_spec_witness :
    strIn "FIXME" "# TODO then FIXME" = true ∧
    ({ file := "a.py", line := 7, marker := "FIXME", text := "# TODO then FIXME" } : Task).text =
      pyStrip "# TODO then FIXME" :=
  have h := C1_comment_detector_spec ["FIXME", "TODO"] "# TODO then FIXME" 7 "a.py"
  have h2 := h.2.1 { file := "a.py", line := 7, marker := "FIXME", text := "# TODO then FIXME" }
    (by decide)
  ⟨h2.1, h2.2.2.1⟩

/-! ### C3: the markdown-checkbox detector -/

/-- C3.  The markdown-checkbox detector emits a Task with marker `"CHECKBOX"`
exactly when the line matches the unchecked-checkbox pattern, and emits no
Task for a checked checkbox line (`"- [x]"` followed by anything). -/
theorem C3_checkbox_detector_spec (L : String) (n : Nat) (f : String) :
    ((∃ t, t ∈ markdownCheckboxDetect L n f ∧ t.marker = "CHECKBOX") ↔
      isUncheckedCheckbox L = true) ∧
    (isUncheckedCheckbox L = false → markdownCheckboxDetect L n f = []) ∧
    (∀ s : String, markdownCheckboxDetect ("- [x]" ++ s) n f = []) := by
  refine ⟨?_, ?_, ?_⟩
  · constructor
    · intro ⟨t, ht, _⟩
      by_cases hc : isUncheckedCheckbox L = true
      · exact hc
      · simp [markdownCheckboxDetect, hc] at ht
    · intro hc
      exact ⟨{ file := f, line := n, marker := "CHECKBOX", text := pyStrip L },
        by simp [markdownCheckboxDetect, hc], rfl⟩
  · intro hc
    simp [markdownCheckboxDetect, hc]
  · intro s
    have hdata : ("- [x]" ++ s).data = '-' :: ' ' :: '[' :: 'x' :: ']' :: s.data := by
      rw [String.data_append]; rfl
    have hmatch : isUncheckedCheckbox ("- [x]" ++ s) = false := by
      rw [isUncheckedCheckbox, hdata]
      simp [List.dropWhile, charsLead]
    simp [markdownCheckboxDetect, hmatch]

/-- Witness for C3 at concrete inputs: the unchecked line `"- [ ] buy milk"`
yields a `CHECKBOX` Task, and `"- [x] done"` yields nothing. -/
theorem C3_checkbox_detector_spec_witness :
    (∃ t, t ∈ markdownCheckboxDetect "- [ ] buy milk" 2 "notes.md" ∧ t.marker = "CHECKBOX") ∧
    markdownCheckboxDetect ("- [x]" ++ " done") 3 "notes.md" = [] :=
  ⟨(C3_checkbox_detector_spec "- [ ] buy milk" 2 "notes.md").1.mpr (by decide),
   (C3_checkbox_detector_spec ("- [x]" ++ " done") 3 "notes.md").2.2 " done"⟩

/-! ### C2: construction of the effective detector -/

/-- C2.  When no explicit detector is supplied, `scan_directory`'s effective
detector is a composite of a comment-marker detector built from `markers`
(the default list when `markers` is absent), plus a markdown-checkbox
detector exactly when `markers` is absent or contains `"CHECKBOX"`; an
explicit detector instance is used verbatim, whatever `markers` is.  The
behavioral consequence is stated as well: the composite's output is the
comment detector's output followed by the checkbox detector's (when
enabled). -/
theorem C2_effective_detector_spec (markers : Option (List String)) (d : Detector) :
    effectiveDetector markers (some d) = d ∧
    effectiveDetector none none =
      Detector.composite [Detector.comment DEFAULT_TASK_MARKERS, Detector.checkbox] ∧
    (∀ ms : List String, effectiveDetector (some ms) none =
      if "CHECKBOX" ∈ ms then
        Detector.composite [Detector.comment ms, Detector.checkbox]
      else
        Detector.composite [Detector.comment ms]) ∧
    (∀ ms line n f, (effectiveDetector (some ms) none).detect line n f =
      commentMarkerDetect ms line n f ++
        (if "CHECKBOX" ∈ ms then markdownCheckboxDetect line n f else [])) := by
  refine ⟨rfl, rfl, ?_, ?_⟩
  · intro ms
    by_cases h : "CHECKBOX" ∈ ms
    · simp [effectiveDetector, h]
    · simp [effectiveDetector, h]
  · intro ms line n f
    by_cases h : "CHECKBOX" ∈ ms
    · simp [effectiveDetector, h, Detector.detect, Detector.detectAll]
    · simp [effectiveDetector, h, Detector.detect, Detector.detectAll]

/-- Witness for C2 at concrete inputs: an explicit detector is returned
verbatim, and with `markers = ["TODO"]` (no `"CHECKBOX"`) the composite holds
only the comment detector. -/
theorem C2_effective_detector_spec_witness :
    effectiveDetector (some ["TODO"]) (some Detector.checkbox) = Detector.checkbox ∧
    effectiveDetector (some ["TODO"]) none = Detector.composite [Detector.comment ["TODO"]] :=
  have h := C2_effective_detector_spec (some ["TODO"]) Detector.checkbox
  ⟨h.1, by rw [h.2.2.1 ["TODO"]]; simp⟩

/-! ### C9: `"CHECKBOX"` handed to the comment detector (corrected) -/

/-- Counterexample to C9 as stated: with the CLI's default marker list, the
line `"# TODO: tick the CHECKBOX"` contains the literal substring
`"CHECKBOX"`, yet the effective detector produces only a `TODO` task — no
Task with marker `"CHECKBOX"` — because `"TODO"` precedes `"CHECKBOX"` in
configured list order. -/
theorem C9_counterexample :
    strIn "CHECKBOX" "# TODO: tick the CHECKBOX" = true ∧
    (effectiveDetector (some ["TODO", "FIXME", "BUG", "NOTE", "HACK", "CHECKBOX"]) none).detect
        "# TODO: tick the CHECKBOX" 1 "a.py" =
      [{ file := "a.py", line := 1, marker := "TODO", text := "# TODO: tick the CHECKBOX" }] ∧
    (∀ t ∈ (effectiveDetector (some ["TODO", "FIXME", "BUG", "NOTE", "HACK", "CHECKBOX"]) none).detect
        "# TODO: tick the CHECKBOX" 1 "a.py", t.marker ≠ "CHECKBOX") := by
  refine ⟨by decide, by decide, by decide⟩

/-- C9 as amended.  When `scan_directory` receives an explicit markers list
containing `"CHECKBOX"`, that string is passed to the comment-marker detector
(the composite's first sub-detector is the comment detector holding the full
list), and every line that contains the literal substring `"CHECKBOX"` and in
which no marker listed before `"CHECKBOX"` occurs — even a line that is not a
markdown checkbox — produces from the comment detector a Task with marker
`"CHECKBOX"`. -/
theorem C9_checkbox_in_comment_detector (ms pre post : List String) (line : String)
    (n : Nat) (f : String)
    (hms : ms = pre ++ "CHECKBOX" :: post)
    (hin : strIn "CHECKBOX" line = true)
    (hpre : ∀ m ∈ pre, strIn m line = false) :
    effectiveDetector (some ms) none =
      Detector.composite [Detector.comment ms, Detector.checkbox] ∧
    commentMarkerDetect ms line n f =
      [{ file := f, line := n, marker := "CHECKBOX", text := pyStrip line }] := by
  constructor
  · have hmem : "CHECKBOX" ∈ ms := by
      rw [hms]; exact List.mem_append_right _ (List.mem_cons_self _ _)
    simp [effectiveDetector, hmem]
  · subst hms
    induction pre with
    | nil => simp [commentMarkerDetect, hin]
    | cons m rest ih =>
        have hm : strIn m line = false := hpre m (by simp)
        rw [List.cons_append, commentMarkerDetect]
        simp [hm]
        exact ih (fun x hx => hpre x (List.mem_cons_of_mem m hx))

/-- Witness for C9's amended theorem at a concrete input: markers
`["TODO", "CHECKBOX"]` and the non-checkbox line `"see CHECKBOX here"`
(which contains no `"TODO"`). -/
theorem C9_checkbox_in_comment_detector_witness :
    commentMarkerDetect ["TODO", "CHECKBOX"] "see CHECKBOX here" 4 "b.py" =
      [{ file := "b.py", line := 4, marker := "CHECKBOX", text := "see CHECKBOX here" }] :=
  have h := C9_checkbox_in_comment_detector ["TODO", "CHECKBOX"] ["TODO"] [] "see CHECKBOX here"
    4 "b.py" (by decide) (by decide) (by decide)
  h.2.trans (by decide)

/-! ### C10: unrecognized sort modes fall back to the file key -/

/-- C10.  For every `sort_by` string other than `"marker"` — including
unrecognized values such as `"size"` — `get_sort_key` returns the
`(file, line)` key function, the sort it induces is identical to the
`"file"` sort, and `scan_directory` run with that mode equals the same scan
run with `"file"`; being a total function, it rejects nothing. -/
theorem C10_invalid_sort_mode_spec (s : String) (hs : s ≠ "marker") (tasks : List Task)
    (files : List FsFile) (markers : Option (List String)) (pats : List String)
    (det : Option Detector) (hid : Bool) :
    get_sort_key s = (fun t => SortKey.byFile t.file t.line) ∧
    pySortByKey (get_sort_key s) tasks = pySortByKey (get_sort_key "file") tasks ∧
    scan_directory files markers pats det s hid =
      scan_directory files markers pats det "file" hid := by
  have hfile : ("file" : String) ≠ "marker" := by decide
  have hk : get_sort_key s = (fun t => SortKey.byFile t.file t.line) := by
    simp [get_sort_key, hs]
  have hk2 : get_sort_key "file" = (fun t => SortKey.byFile t.file t.line) := by
    simp [get_sort_key, hfile]
  exact ⟨hk, by rw [hk, hk2], by unfold scan_directory; rw [hk, hk2]⟩

/-- Witness for C10 at the concrete invalid mode `"size"`. -/
theorem C10_invalid_sort_mode_spec_witness :
    get_sort_key "size" = (fun t => SortKey.byFile t.file t.line) :=
  (C10_invalid_sort_mode_spec "size" (by decide) [] [] none [] none true).1

/-! ### C4: hidden-path exclusion (corrected) -/

unseal List.merge List.mergeSort in
/-- Counterexample to C4 as stated: scanning with root `".r"` — a root whose
own component is hidden — the file `".r/main.py"` has no component other than
the root that starts with `"."`, yet `_should_ignore_path` skips it and a
default scan of it finds nothing, against the claim's "skipped if and only if
some path component other than the root itself starts with `.`". -/
theorem C4_counterexample :
    (∀ p ∈ (["main.py"] : List String), strStartsWith p "." = false) ∧
    _should_ignore_path [".r", "main.py"] [] true = true ∧
    scan_directory [⟨[".r", "main.py"], ["# TODO: x"], false⟩] = [] :=
  ⟨by decide, by decide, by decide⟩

unseal List.merge List.mergeSort in
/-- C4 as amended.  When `ignore_hidden` is true a file is skipped exactly
when some component of its full path — the root's own components included —
other than a literal `"."` starts with `"."`; with `ignore_hidden` false (and
no ignore patterns) nothing is skipped.  The claim's scenario stands: for the
tree `main.py` / `.git/config`, both containing a `TODO` marker, a default
scan yields exactly one Task, for `main.py`, and the same scan with
`ignore_hidden := false` yields both. -/
theorem C4_hidden_exclusion_spec (parts : List String) :
    (_should_ignore_path parts [] true = true ↔
      ∃ p ∈ parts, strStartsWith p "." = true ∧ p ≠ ".") ∧
    _should_ignore_path parts [] false = false ∧
    scan_directory
        [⟨["main.py"], ["# TODO: x"], false⟩, ⟨[".git", "config"], ["# TODO: y"], false⟩] =
      [{ file := "main.py", line := 1, marker := "TODO", text := "# TODO: x" }] ∧
    scan_directory
        [⟨["main.py"], ["# TODO: x"], false⟩, ⟨[".git", "config"], ["# TODO: y"], false⟩]
        none [] none "file" false =
      [{ file := ".git/config", line := 1, marker := "TODO", text := "# TODO: y" },
       { file := "main.py", line := 1, marker := "TODO", text := "# TODO: x" }] := by
  refine ⟨?_, rfl, by decide, by decide⟩
  simp [_should_ignore_path, List.any_eq_true, bne_iff_ne]

/-- Witness for C4's amended theorem: the path `[".git", "config"]` is skipped
because its first component is hidden. -/
theorem C4_hidden_exclusion_spec_witness :
    _should_ignore_path [".git", "config"] [] true = true :=
  (C4_hidden_exclusion_spec [".git", "config"]).1.mpr ⟨".git", by decide, by decide, by decide⟩

/-! ### C8: read failures (corrected) -/

unseal List.merge List.mergeSort in
/-- Counterexample to C8 as stated: `results.extend(tasks)` sits inside the
`try`, so a file whose UTF-8 decoding fails partway through is not skipped —
the tasks of the lines decoded before the failure are already accumulated.  A
file that decodes `"# TODO: x"` and then raises contributes that line's Task,
against the claim's "the scan skips that file". -/
theorem C8_counterexample :
    scanOneFile (effectiveDetector none none) [] true
        ⟨["a.py"], ["# TODO: x"], true⟩ ≠ [] ∧
    scan_directory [⟨["a.py"], ["# TODO: x"], true⟩] =
      [{ file := "a.py", line := 1, marker := "TODO", text := "# TODO: x" }] :=
  ⟨by decide, by decide⟩

/-- C8 as amended.  A read failure surfaces no error (the scan is a total
function) and discards nothing: a failing file contributes exactly the tasks
of the lines decoded before the failure — in a scan it is indistinguishable
from a file that ends cleanly after those same lines — and in particular a
file that fails before any line is decoded (open failure, permission error,
immediate decode failure, file vanished) contributes nothing, and removing it
from the tree leaves `scan_directory`'s result unchanged, for every detector
configuration, marker list, pattern list, sort mode and hidden flag. -/
theorem C8_read_failure_spec (pre post : List FsFile) (parts lines : List String)
    (markers : Option (List String)) (pats : List String) (det : Option Detector)
    (sb : String) (hid : Bool) :
    (BINARY_EXTENSIONS.contains (strLower (pySuffix (pathName parts))) = false →
      _should_ignore_path parts pats hid = false →
      scanOneFile (effectiveDetector markers det) pats hid ⟨parts, lines, true⟩ =
        detectLines (effectiveDetector markers det) (pathStr parts) 1 lines) ∧
    scan_directory (pre ++ ⟨parts, lines, true⟩ :: post) markers pats det sb hid =
      scan_directory (pre ++ ⟨parts, lines, false⟩ :: post) markers pats det sb hid ∧
    scanOneFile (effectiveDetector markers det) pats hid ⟨parts, [], true⟩ = [] ∧
    scan_directory (pre ++ ⟨parts, [], true⟩ :: post) markers pats det sb hid =
      scan_directory (pre ++ post) markers pats det sb hid := by
  have h1 : ∀ d, scanOneFile d pats hid ⟨parts, [], true⟩ = [] := by
    intro d
    unfold scanOneFile
    split
    · rfl
    · split
      · rfl
      · rfl
  have hone : ∀ d, scanOneFile d pats hid ⟨parts, lines, true⟩ =
      scanOneFile d pats hid ⟨parts, lines, false⟩ := fun d => rfl
  refine ⟨?_, ?_, h1 _, ?_⟩
  · intro hb hi
    unfold scanOneFile
    simp only [hb, hi]
    simp
  · unfold scan_directory
    simp [hone]
  · unfold scan_directory
    simp [h1]

/-- Witness for C8's amended theorem: for a plain, unfiltered `a.py` that
fails after decoding one line, the contribution is exactly the detector's
tasks for that line. -/
theorem C8_read_failure_spec_witness :
    scanOneFile (effectiveDetector none none) [] true ⟨["a.py"], ["# TODO: x"], true⟩ =
      detectLines (effectiveDetector none none) (pathStr ["a.py"]) 1 ["# TODO: x"] :=
  (C8_read_failure_spec [] [] ["a.py"] ["# TODO: x"] none [] none "file" true).1
    (by decide) (by decide)

/-! ### Order lemmas for the sort keys -/

theorem charsLt_trans : ∀ a b c : List Char,
    charsLt a b = true → charsLt b c = true → charsLt a c = true := by
  intro a
  induction a with
  | nil =>
      intro b c _ hbc
      cases c with
      | nil => cases b <;> simp [charsLt] at hbc
      | cons z zs => simp [charsLt]
  | cons x xs ih =>
      intro b c hab hbc
      cases b with
      | nil => simp [charsLt] at hab
      | cons y ys =>
          cases c with
          | nil => simp [charsLt] at hbc
          | cons z zs =>
              simp only [charsLt, Bool.or_eq_true, Bool.and_eq_true,
                decide_eq_true_eq] at hab hbc ⊢
              rcases hab with h1 | ⟨hxy, h1⟩
              · rcases hbc with h2 | ⟨hyz, h2⟩
                · exact Or.inl (Nat.lt_trans h1 h2)
                · subst hyz; exact Or.inl h1
              · subst hxy
                rcases hbc with h2 | ⟨hyz, h2⟩
                · exact Or.inl h2
                · subst hyz; exact Or.inr ⟨rfl, ih ys zs h1 h2⟩

theorem charsLt_total : ∀ a b : List Char,
    charsLt a b = true ∨ a = b ∨ charsLt b a = true := by
  intro a
  induction a with
  | nil =>
      intro b
      cases b with
      | nil => exact Or.inr (Or.inl rfl)
      | cons y ys => exact Or.inl (by simp [charsLt])
  | cons x xs ih =>
      intro b
      cases b with
      | nil => exact Or.inr (Or.inr (by simp [charsLt]))
      | cons y ys =>
          rcases Nat.lt_trichotomy x.toNat y.toNat with h | h | h
          · exact Or.inl (by simp [charsLt, h])
          · have hxy : x = y := Char.ext (UInt32.ext h)
            subst hxy
            rcases ih ys with h2 | h2 | h2
            · exact Or.inl (by simp [charsLt, h2])
            · subst h2; exact Or.inr (Or.inl rfl)
            · exact Or.inr (Or.inr (by simp [charsLt, h2]))
          · exact Or.inr (Or.inr (by simp [charsLt, h]))

theorem strLt_trans {a b c : String} (h1 : strLt a b = true) (h2 : strLt b c = true) :
    strLt a c = true :=
  charsLt_trans _ _ _ h1 h2

theorem strLt_total (a b : String) : strLt a b = true ∨ a = b ∨ strLt b a = true := by
  rcases charsLt_total a.data b.data with h | h | h
  · exact Or.inl h
  · refine Or.inr (Or.inl ?_)
    cases a; cases b; exact congrArg String.mk (by simpa using h)
  · exact Or.inr (Or.inr h)

theorem sortKeyLE_trans (k1 k2 k3 : SortKey) (h12 : sortKeyLE k1 k2 = true)
    (h23 : sortKeyLE k2 k3 = true) : sortKeyLE k1 k3 = true := by
  cases k1 with
  | byMarker p1 m1 f1 l1 =>
      cases k2 with
      | byFile f l => cases k3 <;> simp [sortKeyLE] at h23 ⊢
      | byMarker p2 m2 f2 l2 =>
          cases k3 with
          | byFile f l => simp [sortKeyLE]
          | byMarker p3 m3 f3 l3 =>
              simp only [sortKeyLE, Bool.or_eq_true, Bool.and_eq_true,
                decide_eq_true_eq] at h12 h23 ⊢
              rcases h12 with h12 | ⟨hp12, h12⟩
              · rcases h23 with h23 | ⟨hp23, _⟩
                · exact Or.inl (by omega)
                · exact Or.inl (by omega)
              · rcases h23 with h23 | ⟨hp23, h23⟩
                · exact Or.inl (by omega)
                · refine Or.inr ⟨by omega, ?_⟩
                  rcases h12 with h12 | ⟨hm12, h12⟩
                  · rcases h23 with h23 | ⟨hm23, _⟩
                    · exact Or.inl (strLt_trans h12 h23)
                    · subst hm23; exact Or.inl h12
                  · subst hm12
                    rcases h23 with h23 | ⟨hm23, h23⟩
                    · exact Or.inl h23
                    · subst hm23
                      refine Or.inr ⟨rfl, ?_⟩
                      rcases h12 with h12 | ⟨hf12, h12⟩
                      · rcases h23 with h23 | ⟨hf23, _⟩
                        · exact Or.inl (strLt_trans h12 h23)
                        · subst hf23; exact Or.inl h12
                      · subst hf12
                        rcases h23 with h23 | ⟨hf23, h23⟩
                        · exact Or.inl h23
                        · subst hf23; exact Or.inr ⟨rfl, by omega⟩
  | byFile f1 l1 =>
      cases k2 with
      | byMarker p2 m2 f2 l2 => simp [sortKeyLE] at h12
      | byFile f2 l2 =>
          cases k3 with
          | byMarker p3 m3 f3 l3 => simp [sortKeyLE] at h23
          | byFile f3 l3 =>
              simp only [sortKeyLE, Bool.or_eq_true, Bool.and_eq_true,
                decide_eq_true_eq] at h12 h23 ⊢
              rcases h12 with h12 | ⟨hf12, h12⟩
              · rcases h23 with h23 | ⟨hf23, _⟩
                · exact Or.inl (strLt_trans h12 h23)
                · subst hf23; exact Or.inl h12
              · subst hf12
                rcases h23 with h23 | ⟨hf23, h23⟩
                · exact Or.inl h23
                · subst hf23; exact Or.inr ⟨rfl, by omega⟩

theorem sortKeyLE_total (k1 k2 : SortKey) :
    sortKeyLE k1 k2 = true ∨ sortKeyLE k2 k1 = true := by
  cases k1 with
  | byMarker p1 m1 f1 l1 =>
      cases k2 with
      | byFile f l => exact Or.inl (by simp [sortKeyLE])
      | byMarker p2 m2 f2 l2 =>
          simp only [sortKeyLE, Bool.or_eq_true, Bool.and_eq_true, decide_eq_true_eq]
          rcases Nat.lt_trichotomy p1 p2 with h | h | h
          · exact Or.inl (Or.inl h)
          · subst h
            rcases strLt_total m1 m2 with h | h | h
            · exact Or.inl (Or.inr ⟨rfl, Or.inl h⟩)
            · subst h
              rcases strLt_total f1 f2 with h | h | h
              · exact Or.inl (Or.inr ⟨rfl, Or.inr ⟨rfl, Or.inl h⟩⟩)
              · subst h
                rcases Nat.le_total l1 l2 with h | h
                · exact Or.inl (Or.inr ⟨rfl, Or.inr ⟨rfl, Or.inr ⟨rfl, h⟩⟩⟩)
                · exact Or.inr (Or.inr ⟨rfl, Or.inr ⟨rfl, Or.inr ⟨rfl, h⟩⟩⟩)
              · exact Or.inr (Or.inr ⟨rfl, Or.inr ⟨rfl, Or.inl h⟩⟩)
            · exact Or.inr (Or.inr ⟨rfl, Or.inl h⟩)
          · exact Or.inr (Or.inl h)
  | byFile f1 l1 =>
      cases k2 with
      | byMarker p2 m2 f2 l2 => exact Or.inr (by simp [sortKeyLE])
      | byFile f2 l2 =>
          simp only [sortKeyLE, Bool.or_eq_true, Bool.and_eq_true, decide_eq_true_eq]
          rcases strLt_total f1 f2 with h | h | h
          · exact Or.inl (Or.inl h)
          · subst h
            rcases Nat.le_total l1 l2 with h | h
            · exact Or.inl (Or.inr ⟨rfl, h⟩)
            · exact Or.inr (Or.inr ⟨rfl, h⟩)
          · exact Or.inr (Or.inl h)

/-! ### C5: the `"marker"` sort order -/

/-- C5.  Sorting with `sort_by = "marker"` permutes the task list into
ascending order of the key `(priority(marker), marker, file, line)` under the
lexicographic/code-point comparison, where the priority table maps `BUG` to 0,
`FIXME` to 1, `TODO` to 2, `HACK` to 3, `NOTE` to 4, `CHECKBOX` to 5 and every
other marker to 999 (so unknown markers sort last, alphabetically among
themselves within rank 999); consequently in the sorted output every task
with marker `"BUG"` sits strictly before every task with marker `"TODO"`,
regardless of file and line. -/
theorem C5_marker_sort_spec (tasks : List Task) :
    (∀ t : Task, get_sort_key "marker" t =
      SortKey.byMarker ((MARKER_PRIORITY.lookup t.marker).getD 999) t.marker t.file t.line) ∧
    ((MARKER_PRIORITY.lookup "BUG").getD 999 = 0 ∧
     (MARKER_PRIORITY.lookup "FIXME").getD 999 = 1 ∧
     (MARKER_PRIORITY.lookup "TODO").getD 999 = 2 ∧
     (MARKER_PRIORITY.lookup "HACK").getD 999 = 3 ∧
     (MARKER_PRIORITY.lookup "NOTE").getD 999 = 4 ∧
     (MARKER_PRIORITY.lookup "CHECKBOX").getD 999 = 5) ∧
    (∀ m : String, m ∉ ["BUG", "FIXME", "TODO", "HACK", "NOTE", "CHECKBOX"] →
      (MARKER_PRIORITY.lookup m).getD 999 = 999) ∧
    List.Perm (pySortByKey (get_sort_key "marker") tasks) tasks ∧
    (pySortByKey (get_sort_key "marker") tasks).Pairwise
      (fun a b => sortKeyLE (get_sort_key "marker" a) (get_sort_key "marker" b) = true) ∧
    (∀ i j : Fin (pySortByKey (get_sort_key "marker") tasks).length,
      ((pySortByKey (get_sort_key "marker") tasks).get i).marker = "BUG" →
      ((pySortByKey (get_sort_key "marker") tasks).get j).marker = "TODO" →
      i.val < j.val) := by
  have hkey : get_sort_key "marker" = fun t =>
      SortKey.byMarker ((MARKER_PRIORITY.lookup t.marker).getD 999) t.marker t.file t.line := by
    simp [get_sort_key]
  have hpair : (pySortByKey (get_sort_key "marker") tasks).Pairwise
      (fun a b => sortKeyLE (get_sort_key "marker" a) (get_sort_key "marker" b) = true) := by
    have h := @List.sorted_mergeSort Task
      (fun a b => sortKeyLE (get_sort_key "marker" a) (get_sort_key "marker" b))
      (fun a b c hab hbc => sortKeyLE_trans _ _ _ hab hbc)
      (fun a b => by
        rcases sortKeyLE_total (get_sort_key "marker" a) (get_sort_key "marker" b) with h | h <;>
          simp [h])
      tasks
    simpa [pySortByKey] using h
  refine ⟨fun t => by rw [hkey], by decide, ?_, ?_, hpair, ?_⟩
  · intro m hm
    simp only [List.mem_cons, not_or] at hm
    obtain ⟨h1, h2, h3, h4, h5, h6, _⟩ := hm
    have e1 : (m == "BUG") = false := beq_eq_false_iff_ne.mpr h1
    have e2 : (m == "FIXME") = false := beq_eq_false_iff_ne.mpr h2
    have e3 : (m == "TODO") = false := beq_eq_false_iff_ne.mpr h3
    have e4 : (m == "HACK") = false := beq_eq_false_iff_ne.mpr h4
    have e5 : (m == "NOTE") = false := beq_eq_false_iff_ne.mpr h5
    have e6 : (m == "CHECKBOX") = false := beq_eq_false_iff_ne.mpr h6
    simp [MARKER_PRIORITY, List.lookup, e1, e2, e3, e4, e5, e6]
  · simpa [pySortByKey] using List.mergeSort_perm tasks
      (fun a b => sortKeyLE (get_sort_key "marker" a) (get_sort_key "marker" b))
  · intro i j hi hj
    by_contra hij
    have hji : j.val ≤ i.val := Nat.le_of_not_lt hij
    rcases Nat.eq_or_lt_of_le hji with heq | hlt
    · have : i = j := Fin.ext heq.symm
      subst this
      rw [hi] at hj
      exact absurd hj (by decide)
    · have hR := List.pairwise_iff_get.mp hpair j i hlt
      simp only [hkey] at hR
      simp only [hi, hj] at hR
      simp only [show (MARKER_PRIORITY.lookup "TODO").getD 999 = 2 from rfl,
        show (MARKER_PRIORITY.lookup "BUG").getD 999 = 0 from rfl] at hR
      simp only [sortKeyLE, Bool.or_eq_true, Bool.and_eq_true, decide_eq_true_eq] at hR
      rcases hR with h | ⟨h, _⟩ <;> omega

unseal List.merge List.mergeSort in
/-- Witness for C5 at a concrete input: sorting two tasks by `"marker"` puts
the `BUG` task (later in the input, alphabetically later file) strictly
before the `TODO` task. -/
theorem C5_marker_sort_spec_witness :
    (⟨0, by decide⟩ : Fin (pySortByKey (get_sort_key "marker")
      [{ file := "a.py", line := 1, marker := "TODO", text := "t" },
       { file := "z.py", line := 9, marker := "BUG", text := "b" }]).length).val <
    (⟨1, by decide⟩ : Fin (pySortByKey (get_sort_key "marker")
      [{ file := "a.py", line := 1, marker := "TODO", text := "t" },
       { file := "z.py", line := 9, marker := "BUG", text := "b" }]).length).val :=
  (C5_marker_sort_spec
    [{ file := "a.py", line := 1, marker := "TODO", text := "t" },
     { file := "z.py", line := 9, marker := "BUG", text := "b" }]).2.2.2.2.2
    ⟨0, by decide⟩ ⟨1, by decide⟩ (by decide) (by decide)

/-! ### String-replacement lemmas for the text formatter -/

theorem strExt {a b : String} (h : a.data = b.data) : a = b := by
  cases a; cases b; exact congrArg String.mk h

theorem charsLead_append_self : ∀ l rest : List Char, charsLead l (l ++ rest) = true := by
  intro l
  induction l with
  | nil => intro rest; rfl
  | cons a as ih => intro rest; simp [charsLead, ih]

theorem digitChar_ne_bracket (d : Nat) : Nat.digitChar d ≠ '[' := by
  by_cases h : d < 16
  · interval_cases d <;> decide
  · have h0 : ∀ k, d ≠ k → (if d = k then '0' else Nat.digitChar d) = Nat.digitChar d := by
      intro k hk; rw [if_neg hk]
    unfold Nat.digitChar
    repeat rw [if_neg (by omega)]
    decide

theorem natChars_ne_bracket (n : Nat) : ∀ c ∈ natChars n, c ≠ '[' := by
  induction n using Nat.strong_induction_on with
  | _ n ih =>
      intro c hc
      rw [natChars] at hc
      by_cases h : n < 10
      · rw [if_pos h] at hc
        simp at hc
        subst hc
        exact digitChar_ne_bracket n
      · rw [if_neg h] at hc
        rcases List.mem_append.mp hc with h1 | h1
        · exact ih (n / 10) (Nat.div_lt_self (by omega) (by omega)) c h1
        · simp at h1
          subst h1
          exact digitChar_ne_bracket (n % 10)

theorem pyReplaceChars_skip (c0 : Char) (tl new : List Char) :
    ∀ A rest : List Char, c0 ∉ A →
      pyReplaceChars (c0 :: tl) new (A ++ rest) = A ++ pyReplaceChars (c0 :: tl) new rest := by
  intro A
  induction A with
  | nil => intro rest _; rfl
  | cons a as ih =>
      intro rest hA
      have ha : c0 ≠ a := fun h => hA (by rw [h]; exact List.mem_cons_self _ _)
      rw [List.cons_append, pyReplaceChars]
      have hlead : charsLead (c0 :: tl) (a :: (as ++ rest)) = false := by
        simp [charsLead, ha]
      rw [if_neg (fun hcc => by simp [hlead] at hcc)]
      rw [ih rest (fun h => hA (List.mem_cons_of_mem a h))]
      rfl

theorem pyReplaceChars_hit (c0 : Char) (tl new B : List Char) :
    pyReplaceChars (c0 :: tl) new (c0 :: (tl ++ B)) =
      new ++ pyReplaceChars (c0 :: tl) new B := by
  rw [pyReplaceChars]
  have hlead : charsLead (c0 :: tl) (c0 :: (tl ++ B)) = true := by
    have := charsLead_append_self (c0 :: tl) B
    simpa using this
  rw [if_pos ⟨by simp, hlead⟩]
  congr 1
  have : (c0 :: (tl ++ B)).drop (c0 :: tl).length = B := by
    simpa using List.drop_left tl B
  rw [this]

theorem pyReplaceChars_none (c0 : Char) (tl new : List Char) :
    ∀ B : List Char, c0 ∉ B → pyReplaceChars (c0 :: tl) new B = B := by
  intro B
  induction B with
  | nil => intro _; rw [pyReplaceChars]
  | cons b bs ih =>
      intro hB
      have hb : c0 ≠ b := fun h => hB (by rw [h]; exact List.mem_cons_self _ _)
      rw [pyReplaceChars]
      have hlead : charsLead (c0 :: tl) (b :: bs) = false := by
        simp [charsLead, hb]
      rw [if_neg (fun hcc => by simp [hlead] at hcc)]
      rw [ih (fun h => hB (List.mem_cons_of_mem b h))]

/-! ### C7: the text formatter (corrected) -/

unseal pyReplaceChars natChars in
/-- Counterexample to C7 as stated: the text formatter wraps the bracketed
marker in ANSI color codes, so even for a single attribution-free task the
rendered line is not the plain string `"{file}:{line}: [{marker}] {text}"`. -/
theorem C7_counterexample :
    textFormat (fun _ => none) false
        [{ file := "a.py", line := 1, marker := "TODO", text := "x" }] ≠
      "a.py:1: [TODO] x" ∧
    textFormat (fun _ => none) false
        [{ file := "a.py", line := 1, marker := "TODO", text := "x" }] =
      "a.py:1: \x1b[34m[TODO]\x1b[0m x" := by
  refine ⟨by decide, by decide⟩

/-- C7 as amended.  For every non-empty task list without attribution fields,
the text formatter renders exactly one line per task: `str(task)` with every
occurrence of `"[{marker}]"` wrapped in the marker's ANSI color and the ANSI
reset; when neither the file nor the text contains a `[` the line is exactly
`"{file}:{line}: {COLOR}[{marker}]{RESET} {text}"`.  For the empty task list
the result is the exact fixed string `"No tasks found!"`. -/
theorem C7_text_formatter_spec (naturaltime : String → Option String)
    (tasks : List Task) (hne : tasks ≠ []) (hattr : ∀ t ∈ tasks, t.author = none) :
    textFormat naturaltime false tasks =
      String.intercalate "\n" (tasks.map (fun t =>
        pyReplace (taskStr t) ("[" ++ t.marker ++ "]")
          ((MARKER_COLORS.lookup t.marker).getD FORE_WHITE ++ "[" ++ t.marker ++ "]" ++
            STYLE_RESET_ALL))) ∧
    (∀ t ∈ tasks, '[' ∉ t.file.data → '[' ∉ t.text.data →
      pyReplace (taskStr t) ("[" ++ t.marker ++ "]")
          ((MARKER_COLORS.lookup t.marker).getD FORE_WHITE ++ "[" ++ t.marker ++ "]" ++
            STYLE_RESET_ALL) =
        t.file ++ ":" ++ natStr t.line ++ ": " ++
          (MARKER_COLORS.lookup t.marker).getD FORE_WHITE ++ "[" ++ t.marker ++ "]" ++
          STYLE_RESET_ALL ++ " " ++ t.text) ∧
    textFormat naturaltime false [] = "No tasks found!" := by
  refine ⟨?_, ?_, rfl⟩
  · rw [textFormat, if_neg (by simpa [List.isEmpty_iff] using hne)]
    congr 1
    apply List.map_congr_left
    intro t ht
    rw [textFormatLine]
    have hauthor : optTruthy t.author = false := by
      rw [hattr t ht]; rfl
    rw [if_neg (by simp [hauthor])]
  · intro t ht hfile htext
    set color := (MARKER_COLORS.lookup t.marker).getD FORE_WHITE with hcolor
    set A : List Char := t.file.data ++ ':' :: (natChars t.line ++ [':', ' ']) with hAdef
    have hA : '[' ∉ A := by
      rw [hAdef]
      intro hmem
      rcases List.mem_append.mp hmem with h | h
      · exact hfile h
      · rcases List.mem_cons.mp h with h | h
        · exact absurd h (by decide)
        · rcases List.mem_append.mp h with h | h
          · exact natChars_ne_bracket t.line '[' h rfl
          · rcases List.mem_cons.mp h with h | h
            · exact absurd h (by decide)
            · rcases List.mem_cons.mp h with h | h
              · exact absurd h (by decide)
              · cases h
    have hB : '[' ∉ (' ' :: t.text.data) := by
      intro hmem
      rcases List.mem_cons.mp hmem with h | h
      · exact absurd h (by decide)
      · exact htext h
    have hdecomp : (taskStr t).data =
        A ++ ('[' :: ((t.marker.data ++ [']']) ++ (' ' :: t.text.data))) := by
      rw [hAdef]
      simp [taskStr, natStr, String.data_append]
    have hold : ("[" ++ t.marker ++ "]").data = '[' :: (t.marker.data ++ [']']) := by
      simp [String.data_append]
    apply strExt
    rw [pyReplace]
    show pyReplaceChars ("[" ++ t.marker ++ "]").data
      (color ++ "[" ++ t.marker ++ "]" ++ STYLE_RESET_ALL).data (taskStr t).data = _
    rw [hold, hdecomp]
    rw [pyReplaceChars_skip '[' (t.marker.data ++ [']']) _ A _ hA]
    rw [pyReplaceChars_hit]
    rw [pyReplaceChars_none '[' (t.marker.data ++ [']']) _ _ hB]
    simp [String.data_append, hcolor, hAdef, natStr]

unseal pyReplaceChars natChars in
/-- Witness for C7's amended theorem on a concrete single-task list: the line
is the plain form with the marker wrapped in blue/reset ANSI codes, and its
hypotheses are discharged by computation. -/
theorem C7_text_formatter_spec_witness :
    textFormat (fun _ => none) false
        [{ file := "a.py", line := 1, marker := "TODO", text := "x" }] =
      "a.py:1: " ++ FORE_BLUE ++ "[TODO]" ++ STYLE_RESET_ALL ++ " x" :=
  have h := C7_text_formatter_spec (fun _ => none)
    [{ file := "a.py", line := 1, marker := "TODO", text := "x" }]
    (by decide) (by intro t ht; simp at ht; rw [ht])
  by
    rw [h.1]
    have h2 := h.2.1 { file := "a.py", line := 1, marker := "TODO", text := "x" }
      (by simp) (by decide) (by decide)
    rw [show (String.intercalate "\n"
      ([{ file := "a.py", line := 1, marker := "TODO", text := "x" }].map (fun t =>
        pyReplace (taskStr t) ("[" ++ t.marker ++ "]")
          ((MARKER_COLORS.lookup t.marker).getD FORE_WHITE ++ "[" ++ t.marker ++ "]" ++
            STYLE_RESET_ALL)))) = pyReplace (taskStr
              { file := "a.py", line := 1, marker := "TODO", text := "x" })
          ("[" ++ "TODO" ++ "]")
          ((MARKER_COLORS.lookup "TODO").getD FORE_WHITE ++ "[" ++ "TODO" ++ "]" ++
            STYLE_RESET_ALL) from by decide]
    decide

/-! ### JSON serialization and parsing

`JSONFormatter.format` is `json.dumps(task_dicts, indent=2)` with CPython's
defaults (`ensure_ascii=True`, separators `","`/`": "`); the renderer below
reproduces its output character for character on the fragment `Task.to_dict`
can produce.  A standalone JSON parser for the same fragment models
`JSON-parse`, so the round-trip claim can be stated on actual strings. -/

/-- Four lowercase hex digits, as CPython's `\uXXXX` escapes render them
(`Nat.digitChar` yields `0-9a-f` below 16). -/
def hex4 (n : Nat) : List Char :=
  [Nat.digitChar (n / 4096 % 16), Nat.digitChar (n / 256 % 16),
   Nat.digitChar (n / 16 % 16), Nat.digitChar (n % 16)]

/-- CPython's `py_encode_basestring_ascii` escaping of one character:
the two-character escapes for quote, backslash and the five control
characters with short forms, printable ASCII verbatim, `\uXXXX` for the rest
of the basic plane, and a surrogate pair for astral characters. -/
def escapeChar (c : Char) : List Char :=
  if c = '"' then ['\\', '"']
  else if c = '\\' then ['\\', '\\']
  else if c = '\n' then ['\\', 'n']
  else if c = '\r' then ['\\', 'r']
  else if c = '\t' then ['\\', 't']
  else if c = '\x08' then ['\\', 'b']
  else if c = '\x0c' then ['\\', 'f']
  else if 0x20 ≤ c.toNat ∧ c.toNat ≤ 0x7e then [c]
  else if c.toNat < 0x10000 then '\\' :: 'u' :: hex4 c.toNat
  else
    '\\' :: 'u' :: (hex4 (0xd800 + (c.toNat - 0x10000) / 0x400) ++
      ('\\' :: 'u' :: hex4 (0xdc00 + (c.toNat - 0x10000) % 0x400)))

/-- JSON string-body escaping, character by character. -/
def escapeChars : List Char → List Char
  | [] => []
  | c :: cs => escapeChar c ++ escapeChars cs

/-- The `indent=2` prefix at a nesting depth. -/
def jsonIndent (depth : Nat) : List Char := List.replicate (2 * depth) ' '

mutual

/-- Render one JSON value at a nesting depth, exactly as
`json.dumps(..., indent=2)` does. -/
def dumpVal (depth : Nat) : JVal → List Char
  | .jstr s => '"' :: (escapeChars s.data ++ ['"'])
  | .jnum n => natChars n
  | .jnull => ['n', 'u', 'l', 'l']
  | .jarr items =>
      match items with
      | [] => ['[', ']']
      | x :: xs => '[' :: '\n' :: (dumpItems (depth + 1) (x :: xs) ++
          '\n' :: (jsonIndent depth ++ [']']))
  | .jobj fields =>
      match fields with
      | [] => ['\x7b', '\x7d']
      | f :: fs => '\x7b' :: '\n' :: (dumpFields (depth + 1) (f :: fs) ++
          '\n' :: (jsonIndent depth ++ ['\x7d']))

/-- Render an array's items, one per line, separated by `",\n"`. -/
def dumpItems (depth : Nat) : List JVal → List Char
  | [] => []
  | [x] => jsonIndent depth ++ dumpVal depth x
  | x :: y :: xs =>
      jsonIndent depth ++ (dumpVal depth x ++ ',' :: '\n' :: dumpItems depth (y :: xs))

/-- Render an object's members, one per line, `"key": value`, separated by
`",\n"`. -/
def dumpFields (depth : Nat) : List (String × JVal) → List Char
  | [] => []
  | [(k, v)] =>
      jsonIndent depth ++ ('"' :: (escapeChars k.data ++ '"' :: ':' :: ' ' :: dumpVal depth v))
  | (k, v) :: g :: fs =>
      jsonIndent depth ++ ('"' :: (escapeChars k.data ++ '"' :: ':' :: ' ' ::
        (dumpVal depth v ++ ',' :: '\n' :: dumpFields depth (g :: fs))))

end

/-- `JSONFormatter.format` of `src/tickle/output.py`:
`json.dumps([task.to_dict() for task in tasks], indent=2)`. -/
def jsonFormat (tasks : List Task) : String := ⟨dumpVal 0 (jsonDocument tasks)⟩

/-- The four JSON whitespace characters. -/
def jsonWs (c : Char) : Bool := c = ' ' || c = '\t' || c = '\n' || c = '\r'

/-- Drop leading JSON whitespace. -/
def skipWs (s : List Char) : List Char := s.dropWhile jsonWs

/-- Value of one hex digit (either case), `none` for non-hex characters. -/
def hexVal (c : Char) : Option Nat :=
  if 48 ≤ c.toNat ∧ c.toNat ≤ 57 then some (c.toNat - 48)
  else if 97 ≤ c.toNat ∧ c.toNat ≤ 102 then some (c.toNat - 87)
  else if 65 ≤ c.toNat ∧ c.toNat ≤ 70 then some (c.toNat - 55)
  else none

/-- The single-character JSON escapes. -/
def jsonUnescape (e : Char) : Option Char :=
  if e = '"' then some '"'
  else if e = '\\' then some '\\'
  else if e = '/' then some '/'
  else if e = 'b' then some '\x08'
  else if e = 'f' then some '\x0c'
  else if e = 'n' then some '\n'
  else if e = 'r' then some '\r'
  else if e = 't' then some '\t'
  else none

/-- Decode one escape sequence (the input starts after the backslash):
a single-character escape, a `\uXXXX` basic-plane escape, or a valid
surrogate pair; returns the decoded character and the remaining input.
Not recursive. -/
def parseEscSeq : List Char → Option (Char × List Char)
  | [] => none
  | e :: rest =>
      if e = 'u' then
        match rest with
        | h1 :: h2 :: h3 :: h4 :: rest2 =>
            (match hexVal h1, hexVal h2, hexVal h3, hexVal h4 with
             | some x1, some x2, some x3, some x4 =>
                 let n := 4096 * x1 + 256 * x2 + 16 * x3 + x4
                 if 0xd800 ≤ n ∧ n ≤ 0xdbff then
                   match rest2 with
                   | b1 :: u1 :: g1 :: g2 :: g3 :: g4 :: rest3 =>
                       if b1 = '\\' ∧ u1 = 'u' then
                         (match hexVal g1, hexVal g2, hexVal g3, hexVal g4 with
                          | some y1, some y2, some y3, some y4 =>
                              let m := 4096 * y1 + 256 * y2 + 16 * y3 + y4
                              if 0xdc00 ≤ m ∧ m ≤ 0xdfff then
                                some (Char.ofNat (0x10000 + (n - 0xd800) * 0x400 + (m - 0xdc00)),
                                  rest3)
                              else none
                          | _, _, _, _ => none)
                       else none
                   | _ => none
                 else if 0xdc00 ≤ n ∧ n ≤ 0xdfff then none
                 else some (Char.ofNat n, rest2)
             | _, _, _, _ => none)
        | _ => none
      else
        match jsonUnescape e with
        | some ec => some (ec, rest)
        | none => none

/-- Parse a JSON string body after the opening quote (fuel-indexed; one unit
of fuel per decoded character), decoding escapes via `parseEscSeq`; returns
the decoded characters and the input after the closing quote. -/
def parseStringBody : Nat → List Char → Option (List Char × List Char)
  | 0, _ => none
  | fuel + 1, s =>
      match s with
      | [] => none
      | c :: rest =>
          if c = '"' then some ([], rest)
          else if c = '\\' then
            match parseEscSeq rest with
            | none => none
            | some (ec, rest2) =>
                (parseStringBody fuel rest2).map (fun p => (ec :: p.1, p.2))
          else (parseStringBody fuel rest).map (fun p => (c :: p.1, p.2))

/-- Parse a JSON string body with ample fuel. -/
def parseStr (s : List Char) : Option (List Char × List Char) :=
  parseStringBody (s.length + 1) s

/-- Decimal-digit test. -/
def isDigitCh (c : Char) : Bool := 48 ≤ c.toNat && c.toNat ≤ 57

/-- Consume a run of decimal digits, accumulating their value. -/
def parseDigits : Nat → List Char → Nat × List Char
  | acc, [] => (acc, [])
  | acc, c :: rest =>
      if isDigitCh c then parseDigits (acc * 10 + (c.toNat - 48)) rest else (acc, c :: rest)

/-- Parse a non-negative JSON integer (the only number shape the formatter
emits). -/
def parseNum : List Char → Option (Nat × List Char)
  | [] => none
  | c :: rest => if isDigitCh c then some (parseDigits 0 (c :: rest)) else none

mutual

/-- Parse one JSON value (fuel-indexed; the fuel only bounds nesting and
item counts, and `jsonParse` supplies more than any document needs). -/
def parseVal : Nat → List Char → Option (JVal × List Char)
  | 0, _ => none
  | fuel + 1, s =>
      match skipWs s with
      | [] => none
      | c :: rest =>
          if c = '"' then (parseStr rest).map (fun p => (JVal.jstr ⟨p.1⟩, p.2))
          else if c = '[' then
            (match skipWs rest with
             | [] => none
             | c2 :: rest2 =>
                 if c2 = ']' then some (.jarr [], rest2)
                 else (parseItems fuel rest).map (fun p => (JVal.jarr p.1, p.2)))
          else if c = '\x7b' then
            (match skipWs rest with
             | [] => none
             | c2 :: rest2 =>
                 if c2 = '\x7d' then some (.jobj [], rest2)
                 else (parseMembers fuel rest).map (fun p => (JVal.jobj p.1, p.2)))
          else if c = 'n' then
            (match rest with
             | 'u' :: 'l' :: 'l' :: rest2 => some (.jnull, rest2)
             | _ => none)
          else (parseNum (c :: rest)).map (fun p => (JVal.jnum p.1, p.2))

/-- Parse the items of a non-empty array up to and including the closing
bracket. -/
def parseItems : Nat → List Char → Option (List JVal × List Char)
  | 0, _ => none
  | fuel + 1, s =>
      match parseVal fuel s with
      | none => none
      | some (v, rest) =>
          match skipWs rest with
          | [] => none
          | c :: rest2 =>
              if c = ',' then (parseItems fuel rest2).map (fun p => (v :: p.1, p.2))
              else if c = ']' then some ([v], rest2)
              else none

/-- Parse the members of a non-empty object up to and including the closing
brace. -/
def parseMembers : Nat → List Char → Option (List (String × JVal) × List Char)
  | 0, _ => none
  | fuel + 1, s =>
      match skipWs s with
      | [] => none
      | c :: rest =>
          if c = '"' then
            match parseStr rest with
            | none => none
            | some (k, rest2) =>
                match skipWs rest2 with
                | [] => none
                | c2 :: rest3 =>
                    if c2 = ':' then
                      match parseVal fuel rest3 with
                      | none => none
                      | some (v, rest4) =>
                          match skipWs rest4 with
                          | [] => none
                          | c3 :: rest5 =>
                              if c3 = ',' then
                                (parseMembers fuel rest5).map (fun p => ((⟨k⟩, v) :: p.1, p.2))
                              else if c3 = '\x7d' then some ([(⟨k⟩, v)], rest5)
                              else none
                    else none
          else none

end

/-- `JSON-parse` on a full document: parse one value with ample fuel and
require only whitespace to remain. -/
def jsonParse (s : String) : Option JVal :=
  match parseVal (s.data.length + 1) s.data with
  | none => none
  | some (v, rest) => if skipWs rest = [] then some v else none

/-! ### Round-trip lemmas: characters, hex, strings, numbers, whitespace -/

theorem charOfNat_toNat (c : Char) : Char.ofNat c.toNat = c := by
  cases c with
  | mk val valid =>
      simp only [Char.ofNat]
      split
      · apply Char.ext
        simp only [Char.ofNatAux, Char.toNat]
        apply UInt32.ext
        simp [UInt32.toNat, BitVec.toNat_ofNatLt]
      · rename_i h
        exact absurd valid h

theorem char_toNat_valid (c : Char) :
    c.toNat < 0xd800 ∨ (0xdfff < c.toNat ∧ c.toNat < 0x110000) := by
  rcases c.valid with h | ⟨h1, h2⟩
  · exact Or.inl h
  · exact Or.inr ⟨h1, h2⟩

theorem hexVal_digitChar (d : Nat) (h : d < 16) : hexVal (Nat.digitChar d) = some d := by
  interval_cases d <;> decide

theorem digitChar_toNat (d : Nat) (h : d < 10) : (Nat.digitChar d).toNat = 48 + d := by
  interval_cases d <;> decide

theorem isDigitCh_digitChar (d : Nat) (h : d < 10) : isDigitCh (Nat.digitChar d) = true := by
  interval_cases d <;> decide

theorem hex4_recombine (n : Nat) (h : n < 65536) :
    4096 * (n / 4096 % 16) + 256 * (n / 256 % 16) + 16 * (n / 16 % 16) + n % 16 = n := by
  omega

/-- No character of the input has a leading decimal digit at its head. -/
def noLeadingDigit (s : List Char) : Prop :=
  ∀ c, s.head? = some c → isDigitCh c = false

/-- Every character of the list is JSON whitespace. -/
def allWs (w : List Char) : Prop := ∀ c ∈ w, jsonWs c = true

theorem skipWs_allWs {w : List Char} (hw : allWs w) :
    ∀ s : List Char, skipWs (w ++ s) = skipWs s := by
  induction w with
  | nil => intro s; rfl
  | cons c cs ih =>
      intro s
      have hc : jsonWs c = true := hw c (by simp)
      have hcs : allWs cs := fun x hx => hw x (List.mem_cons_of_mem c hx)
      simp only [List.cons_append, skipWs, List.dropWhile_cons, hc, if_true]
      exact ih hcs s

theorem skipWs_nonWs {c : Char} (h : jsonWs c = false) (s : List Char) :
    skipWs (c :: s) = c :: s := by
  simp [skipWs, List.dropWhile_cons, h]

theorem allWs_indent (d : Nat) : allWs (jsonIndent d) := by
  intro c hc
  rw [jsonIndent] at hc
  have := List.eq_of_mem_replicate hc
  subst this
  decide

theorem allWs_newline_indent (d : Nat) : allWs ('\n' :: jsonIndent d) := by
  intro c hc
  rcases List.mem_cons.mp hc with h | h
  · subst h; decide
  · exact allWs_indent d c h

theorem digit_facts (c : Char) (h : isDigitCh c = true) :
    jsonWs c = false ∧ c ≠ '"' ∧ c ≠ '[' ∧ c ≠ '\x7b' ∧ c ≠ 'n' ∧ c ≠ ']' ∧ c ≠ '\x7d' := by
  refine ⟨?_, ?_, ?_, ?_, ?_, ?_, ?_⟩ <;>
    first
      | (intro heq; rw [heq] at h; exact absurd h (by decide))
      | (have h1 : c ≠ ' ' := fun heq => by rw [heq] at h; exact absurd h (by decide)
         have h2 : c ≠ '\t' := fun heq => by rw [heq] at h; exact absurd h (by decide)
         have h3 : c ≠ '\n' := fun heq => by rw [heq] at h; exact absurd h (by decide)
         have h4 : c ≠ '\r' := fun heq => by rw [heq] at h; exact absurd h (by decide)
         simp [jsonWs, h1, h2, h3, h4])

theorem parseEscSeq_u (d1 d2 d3 d4 : Char) (rest : List Char) :
    parseEscSeq ('u' :: d1 :: d2 :: d3 :: d4 :: rest) =
      (match hexVal d1, hexVal d2, hexVal d3, hexVal d4 with
       | some x1, some x2, some x3, some x4 =>
           let n := 4096 * x1 + 256 * x2 + 16 * x3 + x4
           if 0xd800 ≤ n ∧ n ≤ 0xdbff then
             match rest with
             | b1 :: u1 :: g1 :: g2 :: g3 :: g4 :: rest3 =>
                 if b1 = '\\' ∧ u1 = 'u' then
                   (match hexVal g1, hexVal g2, hexVal g3, hexVal g4 with
                    | some y1, some y2, some y3, some y4 =>
                        let m := 4096 * y1 + 256 * y2 + 16 * y3 + y4
                        if 0xdc00 ≤ m ∧ m ≤ 0xdfff then
                          some (Char.ofNat (0x10000 + (n - 0xd800) * 0x400 + (m - 0xdc00)), rest3)
                        else none
                    | _, _, _, _ => none)
                 else none
             | _ => none
           else if 0xdc00 ≤ n ∧ n ≤ 0xdfff then none
           else some (Char.ofNat n, rest)
       | _, _, _, _ => none) := rfl

theorem parseStringBody_succ_cons (fuel : Nat) (c : Char) (rest : List Char) :
    parseStringBody (fuel + 1) (c :: rest) =
      (if c = '"' then some ([], rest)
       else if c = '\\' then
         match parseEscSeq rest with
         | none => none
         | some (ec, rest2) => (parseStringBody fuel rest2).map (fun p => (ec :: p.1, p.2))
       else (parseStringBody fuel rest).map (fun p => (c :: p.1, p.2))) := rfl

theorem parseEscSeq_bmp (n : Nat) (hn16 : n < 65536)
    (hs1 : ¬ (0xd800 ≤ n ∧ n ≤ 0xdbff)) (hs2 : ¬ (0xdc00 ≤ n ∧ n ≤ 0xdfff))
    (rest : List Char) :
    parseEscSeq (('u' :: hex4 n) ++ rest) = some (Char.ofNat n, rest) := by
  have e1 : hexVal (Nat.digitChar (n / 4096 % 16)) = some (n / 4096 % 16) :=
    hexVal_digitChar _ (by omega)
  have e2 : hexVal (Nat.digitChar (n / 256 % 16)) = some (n / 256 % 16) :=
    hexVal_digitChar _ (by omega)
  have e3 : hexVal (Nat.digitChar (n / 16 % 16)) = some (n / 16 % 16) :=
    hexVal_digitChar _ (by omega)
  have e4 : hexVal (Nat.digitChar (n % 16)) = some (n % 16) :=
    hexVal_digitChar _ (by omega)
  have hnn : 4096 * (n / 4096 % 16) + 256 * (n / 256 % 16) +
      16 * (n / 16 % 16) + n % 16 = n := hex4_recombine _ hn16
  simp only [hex4, List.cons_append, List.nil_append]
  rw [parseEscSeq_u]
  simp only [e1, e2, e3, e4]
  simp only [hnn]
  rw [if_neg hs1, if_neg hs2]

theorem parseEscSeq_pair (n m : Nat) (hn : 0xd800 ≤ n ∧ n ≤ 0xdbff)
    (hm : 0xdc00 ≤ m ∧ m ≤ 0xdfff) (rest : List Char) :
    parseEscSeq (('u' :: (hex4 n ++ ('\\' :: 'u' :: hex4 m))) ++ rest) =
      some (Char.ofNat (0x10000 + (n - 0xd800) * 0x400 + (m - 0xdc00)), rest) := by
  have ehi1 : hexVal (Nat.digitChar (n / 4096 % 16)) = some (n / 4096 % 16) :=
    hexVal_digitChar _ (by omega)
  have ehi2 : hexVal (Nat.digitChar (n / 256 % 16)) = some (n / 256 % 16) :=
    hexVal_digitChar _ (by omega)
  have ehi3 : hexVal (Nat.digitChar (n / 16 % 16)) = some (n / 16 % 16) :=
    hexVal_digitChar _ (by omega)
  have ehi4 : hexVal (Nat.digitChar (n % 16)) = some (n % 16) :=
    hexVal_digitChar _ (by omega)
  have elo1 : hexVal (Nat.digitChar (m / 4096 % 16)) = some (m / 4096 % 16) :=
    hexVal_digitChar _ (by omega)
  have elo2 : hexVal (Nat.digitChar (m / 256 % 16)) = some (m / 256 % 16) :=
    hexVal_digitChar _ (by omega)
  have elo3 : hexVal (Nat.digitChar (m / 16 % 16)) = some (m / 16 % 16) :=
    hexVal_digitChar _ (by omega)
  have elo4 : hexVal (Nat.digitChar (m % 16)) = some (m % 16) :=
    hexVal_digitChar _ (by omega)
  have hnhi : 4096 * (n / 4096 % 16) + 256 * (n / 256 % 16) +
      16 * (n / 16 % 16) + n % 16 = n := hex4_recombine _ (by omega)
  have hnlo : 4096 * (m / 4096 % 16) + 256 * (m / 256 % 16) +
      16 * (m / 16 % 16) + m % 16 = m := hex4_recombine _ (by omega)
  simp only [hex4, List.cons_append, List.append_assoc, List.nil_append]
  rw [parseEscSeq_u]
  simp only [ehi1, ehi2, ehi3, ehi4]
  simp only [hnhi]
  rw [if_pos hn]
  rw [if_pos (show _ from by first | trivial | exact ⟨rfl, rfl⟩)]
  simp only [elo1, elo2, elo3, elo4]
  simp only [hnlo]
  rw [if_pos hm]

/-- Every character either needs no escaping (printable, not quote or
backslash) or its escape sequence decodes back to it. -/
theorem escapeChar_step (c : Char) :
    (escapeChar c = [c] ∧ c ≠ '"' ∧ c ≠ '\\') ∨
    (∃ tl, escapeChar c = '\\' :: tl ∧ ∀ rest, parseEscSeq (tl ++ rest) = some (c, rest)) := by
  by_cases h1 : c = '"'
  · subst h1; exact Or.inr ⟨['"'], rfl, fun rest => rfl⟩
  by_cases h2 : c = '\\'
  · subst h2; exact Or.inr ⟨['\\'], rfl, fun rest => rfl⟩
  by_cases h3 : c = '\n'
  · subst h3; exact Or.inr ⟨['n'], rfl, fun rest => rfl⟩
  by_cases h4 : c = '\r'
  · subst h4; exact Or.inr ⟨['r'], rfl, fun rest => rfl⟩
  by_cases h5 : c = '\t'
  · subst h5; exact Or.inr ⟨['t'], rfl, fun rest => rfl⟩
  by_cases h6 : c = '\x08'
  · subst h6; exact Or.inr ⟨['b'], rfl, fun rest => rfl⟩
  by_cases h7 : c = '\x0c'
  · subst h7; exact Or.inr ⟨['f'], rfl, fun rest => rfl⟩
  by_cases h8 : 0x20 ≤ c.toNat ∧ c.toNat ≤ 0x7e
  · refine Or.inl ⟨?_, h1, h2⟩
    rw [escapeChar, if_neg h1, if_neg h2, if_neg h3, if_neg h4, if_neg h5, if_neg h6,
      if_neg h7, if_pos h8]
  by_cases h9 : c.toNat < 0x10000
  · refine Or.inr ⟨'u' :: hex4 c.toNat, ?_, ?_⟩
    · rw [escapeChar, if_neg h1, if_neg h2, if_neg h3, if_neg h4, if_neg h5, if_neg h6,
        if_neg h7, if_neg h8, if_pos h9]
    · intro rest
      have hs1 : ¬ (0xd800 ≤ c.toNat ∧ c.toNat ≤ 0xdbff) := by
        rcases char_toNat_valid c with h | ⟨hv1, hv2⟩ <;> omega
      have hs2 : ¬ (0xdc00 ≤ c.toNat ∧ c.toNat ≤ 0xdfff) := by
        rcases char_toNat_valid c with h | ⟨hv1, hv2⟩ <;> omega
      rw [show ('u' :: hex4 c.toNat) ++ rest = ('u' :: hex4 c.toNat) ++ rest from rfl]
      rw [parseEscSeq_bmp c.toNat (by omega) hs1 hs2 rest, charOfNat_toNat]
  · have hla : c.toNat < 0x110000 := by
      rcases char_toNat_valid c with h | ⟨hv1, hv2⟩ <;> omega
    have hge : 0x10000 ≤ c.toNat := by omega
    refine Or.inr ⟨'u' :: (hex4 (0xd800 + (c.toNat - 0x10000) / 0x400) ++
      ('\\' :: 'u' :: hex4 (0xdc00 + (c.toNat - 0x10000) % 0x400))), ?_, ?_⟩
    · rw [escapeChar, if_neg h1, if_neg h2, if_neg h3, if_neg h4, if_neg h5, if_neg h6,
        if_neg h7, if_neg h8, if_neg h9]
    · intro rest
      rw [parseEscSeq_pair (0xd800 + (c.toNat - 0x10000) / 0x400)
        (0xdc00 + (c.toNat - 0x10000) % 0x400)
        (by constructor <;> omega) (by constructor <;> omega) rest]
      rw [show 0x10000 + (0xd800 + (c.toNat - 0x10000) / 0x400 - 0xd800) * 0x400 +
          (0xdc00 + (c.toNat - 0x10000) % 0x400 - 0xdc00) = c.toNat by omega]
      rw [charOfNat_toNat]

theorem escapeChar_ne_nil (c : Char) : escapeChar c ≠ [] := by
  rcases escapeChar_step c with ⟨h, _, _⟩ | ⟨tl, h, _⟩ <;> simp [h]

theorem escapeChars_length (s : List Char) : s.length ≤ (escapeChars s).length := by
  induction s with
  | nil => simp [escapeChars]
  | cons c cs ih =>
      rw [escapeChars]
      have := escapeChar_ne_nil c
      simp only [List.length_append, List.length_cons]
      have h1 : 1 ≤ (escapeChar c).length := by
        cases h : escapeChar c with
        | nil => exact absurd h this
        | cons a as => simp
      omega

theorem parseStringBody_escapeChars (s : List Char) :
    ∀ (fuel : Nat) (rest : List Char), s.length < fuel →
      parseStringBody fuel (escapeChars s ++ '"' :: rest) = some (s, rest) := by
  induction s with
  | nil =>
      intro fuel rest hf
      obtain ⟨f, rfl⟩ : ∃ f, fuel = f + 1 := ⟨fuel - 1, by omega⟩
      rw [escapeChars]
      simp only [List.nil_append]
      rw [parseStringBody_succ_cons, if_pos rfl]
  | cons c cs ih =>
      intro fuel rest hf
      obtain ⟨f, rfl⟩ : ∃ f, fuel = f + 1 := ⟨fuel - 1, by omega⟩
      rw [escapeChars]
      rcases escapeChar_step c with ⟨hpl, hq, hb⟩ | ⟨tl, htl, hdec⟩
      · rw [hpl]
        simp only [List.cons_append, List.append_assoc]
        rw [parseStringBody_succ_cons, if_neg hq, if_neg hb]
        simp only [List.nil_append]
        rw [ih f rest (by simp at hf; omega)]
        rfl
      · rw [htl]
        simp only [List.cons_append, List.append_assoc]
        rw [parseStringBody_succ_cons, if_neg (by decide : ¬ ('\\' : Char) = '"'), if_pos rfl]
        rw [hdec (escapeChars cs ++ '"' :: rest)]
        simp only [List.nil_append]
        rw [ih f rest (by simp at hf; omega)]
        rfl

theorem parseStr_escapeChars (s rest : List Char) :
    parseStr (escapeChars s ++ '"' :: rest) = some (s, rest) := by
  rw [parseStr]
  apply parseStringBody_escapeChars
  have h1 := escapeChars_length s
  simp only [List.length_append, List.length_cons]
  omega

theorem parseDigits_stop (acc : Nat) (rest : List Char) (h : noLeadingDigit rest) :
    parseDigits acc rest = (acc, rest) := by
  cases rest with
  | nil => rfl
  | cons c cs =>
      have hc : isDigitCh c = false := h c rfl
      rw [parseDigits, if_neg (by simp [hc])]

theorem parseDigits_natChars (n : Nat) : ∀ (acc : Nat) (rest : List Char),
    parseDigits acc (natChars n ++ rest) =
      parseDigits (acc * 10 ^ (natChars n).length + n) rest := by
  induction n using Nat.strong_induction_on with
  | _ n ih =>
      intro acc rest
      by_cases h : n < 10
      · rw [natChars, if_pos h]
        simp only [List.cons_append, List.nil_append, List.length_cons, List.length_nil]
        rw [parseDigits, if_pos (by simp [isDigitCh_digitChar n h])]
        rw [digitChar_toNat n h]
        congr 1
        simp only [pow_one, Nat.zero_add]
        omega
      · rw [natChars, if_neg h]
        rw [List.append_assoc]
        rw [ih (n / 10) (by omega) acc ([Nat.digitChar (n % 10)] ++ rest)]
        simp only [List.cons_append, List.nil_append, List.length_append, List.length_cons,
          List.length_nil]
        rw [parseDigits, if_pos (by simp [isDigitCh_digitChar _ (Nat.mod_lt n (by omega))])]
        rw [digitChar_toNat _ (Nat.mod_lt n (by omega))]
        congr 1
        have hdm : n / 10 * 10 + n % 10 = n := by omega
        have h48 : 48 + n % 10 - 48 = n % 10 := by omega
        rw [h48]
        calc (acc * 10 ^ (natChars (n / 10)).length + n / 10) * 10 + n % 10
            = acc * (10 ^ (natChars (n / 10)).length * 10) + (n / 10 * 10 + n % 10) := by ring
          _ = acc * 10 ^ ((natChars (n / 10)).length + 0 + 1) + n := by
              rw [hdm, pow_succ]

theorem natChars_head_digit : ∀ n : Nat, ∃ d tail,
    natChars n = Nat.digitChar d :: tail ∧ d < 10 := by
  intro n
  induction n using Nat.strong_induction_on with
  | _ n ih =>
      by_cases h : n < 10
      · exact ⟨n, [], by rw [natChars, if_pos h], h⟩
      · obtain ⟨d, tail, hform, hd⟩ := ih (n / 10) (by omega)
        refine ⟨d, tail ++ [Nat.digitChar (n % 10)], ?_, hd⟩
        rw [natChars, if_neg h, hform]
        rfl

theorem parseNum_natChars (n : Nat) (rest : List Char) (h : noLeadingDigit rest) :
    parseNum (natChars n ++ rest) = some (n, rest) := by
  obtain ⟨d, tail, hform, hdlt⟩ := natChars_head_digit n
  rw [hform]
  simp only [List.cons_append]
  rw [parseNum, if_pos (by simp [isDigitCh_digitChar d hdlt])]
  rw [← List.cons_append, ← hform]
  rw [parseDigits_natChars]
  rw [parseDigits_stop _ _ h]
  simp

/-! ### The main dump/parse round trip -/

mutual

/-- Fuel needed by `parseVal` for a value (one unit per node). -/
def sizeV : JVal → Nat
  | .jstr _ => 1
  | .jnum _ => 1
  | .jnull => 1
  | .jarr items => sizeL items + 1
  | .jobj fields => sizeF fields + 1

/-- Fuel needed by `parseItems` for an item list. -/
def sizeL : List JVal → Nat
  | [] => 0
  | v :: vs => sizeV v + sizeL vs + 1

/-- Fuel needed by `parseMembers` for a member list. -/
def sizeF : List (String × JVal) → Nat
  | [] => 0
  | f :: fs => sizeV f.2 + sizeF fs + 1

end

theorem dumpVal_jnum (d n : Nat) : dumpVal d (.jnum n) = natChars n := rfl

theorem dumpVal_jarr_cons (d : Nat) (x : JVal) (xs : List JVal) :
    dumpVal d (.jarr (x :: xs)) = '[' :: '\n' :: (dumpItems (d + 1) (x :: xs) ++
      '\n' :: (jsonIndent d ++ [']'])) := rfl

theorem dumpVal_jobj_cons (d : Nat) (f : String × JVal) (fs : List (String × JVal)) :
    dumpVal d (.jobj (f :: fs)) = '\x7b' :: '\n' :: (dumpFields (d + 1) (f :: fs) ++
      '\n' :: (jsonIndent d ++ ['\x7d'])) := rfl

theorem dumpItems_single (d : Nat) (x : JVal) :
    dumpItems d [x] = jsonIndent d ++ dumpVal d x := rfl

theorem dumpItems_cons2 (d : Nat) (x y : JVal) (xs : List JVal) :
    dumpItems d (x :: y :: xs) =
      jsonIndent d ++ (dumpVal d x ++ ',' :: '\n' :: dumpItems d (y :: xs)) := rfl

theorem dumpFields_single (d : Nat) (k : String) (v : JVal) :
    dumpFields d [(k, v)] =
      jsonIndent d ++ ('"' :: (escapeChars k.data ++ '"' :: ':' :: ' ' :: dumpVal d v)) := rfl

theorem dumpFields_cons2 (d : Nat) (k : String) (v : JVal) (g : String × JVal)
    (fs : List (String × JVal)) :
    dumpFields d ((k, v) :: g :: fs) =
      jsonIndent d ++ ('"' :: (escapeChars k.data ++ '"' :: ':' :: ' ' ::
        (dumpVal d v ++ ',' :: '\n' :: dumpFields d (g :: fs)))) := rfl

theorem dumpVal_head (d : Nat) (v : JVal) : ∃ c cs, dumpVal d v = c :: cs ∧
    jsonWs c = false ∧ c ≠ ']' ∧ c ≠ '\x7d' := by
  cases v with
  | jstr s => exact ⟨'"', _, rfl, by decide, by decide, by decide⟩
  | jnum n =>
      obtain ⟨dd, tail, hform, hlt⟩ := natChars_head_digit n
      have hd : isDigitCh (Nat.digitChar dd) = true := isDigitCh_digitChar dd hlt
      obtain ⟨hws, _, _, _, _, hne1, hne2⟩ := digit_facts _ hd
      exact ⟨Nat.digitChar dd, tail, by rw [dumpVal_jnum, hform], hws, hne1, hne2⟩
  | jnull => exact ⟨'n', _, rfl, by decide, by decide, by decide⟩
  | jarr items =>
      cases items with
      | nil => exact ⟨'[', _, rfl, by decide, by decide, by decide⟩
      | cons x xs => exact ⟨'[', _, rfl, by decide, by decide, by decide⟩
  | jobj fields =>
      cases fields with
      | nil => exact ⟨'\x7b', _, rfl, by decide, by decide, by decide⟩
      | cons f fs =>
          cases f with
          | mk k vv => exact ⟨'\x7b', _, rfl, by decide, by decide, by decide⟩

theorem skipWs_ws_cons {w : List Char} (hw : allWs w) {c : Char} (hc : jsonWs c = false)
    (s : List Char) : skipWs (w ++ (c :: s)) = c :: s := by
  rw [skipWs_allWs hw, skipWs_nonWs hc]

theorem parseVal_succ (fuel : Nat) (s : List Char) :
    parseVal (fuel + 1) s =
      (match skipWs s with
       | [] => none
       | c :: rest =>
           if c = '"' then (parseStr rest).map (fun p => (JVal.jstr ⟨p.1⟩, p.2))
           else if c = '[' then
             (match skipWs rest with
              | [] => none
              | c2 :: rest2 =>
                  if c2 = ']' then some (.jarr [], rest2)
                  else (parseItems fuel rest).map (fun p => (JVal.jarr p.1, p.2)))
           else if c = '\x7b' then
             (match skipWs rest with
              | [] => none
              | c2 :: rest2 =>
                  if c2 = '\x7d' then some (.jobj [], rest2)
                  else (parseMembers fuel rest).map (fun p => (JVal.jobj p.1, p.2)))
           else if c = 'n' then
             (match rest with
              | 'u' :: 'l' :: 'l' :: rest2 => some (.jnull, rest2)
              | _ => none)
           else (parseNum (c :: rest)).map (fun p => (JVal.jnum p.1, p.2))) := rfl

theorem parseVal_step_str (fuel : Nat) {s s' : List Char}
    (hskip : skipWs s = '"' :: s') :
    parseVal (fuel + 1) s = (parseStr s').map (fun p => (JVal.jstr ⟨p.1⟩, p.2)) := by
  rw [parseVal_succ]
  simp only [hskip, reduceIte]
  repeat rw [if_neg (by decide)]

theorem parseVal_step_arr (fuel : Nat) {s s' : List Char}
    (hskip : skipWs s = '[' :: s') :
    parseVal (fuel + 1) s =
      (match skipWs s' with
       | [] => none
       | c2 :: rest2 =>
           if c2 = ']' then some (.jarr [], rest2)
           else (parseItems fuel s').map (fun p => (JVal.jarr p.1, p.2))) := by
  rw [parseVal_succ]
  simp only [hskip, reduceIte]
  repeat rw [if_neg (by decide)]

theorem parseVal_step_obj (fuel : Nat) {s s' : List Char}
    (hskip : skipWs s = '\x7b' :: s') :
    parseVal (fuel + 1) s =
      (match skipWs s' with
       | [] => none
       | c2 :: rest2 =>
           if c2 = '\x7d' then some (.jobj [], rest2)
           else (parseMembers fuel s').map (fun p => (JVal.jobj p.1, p.2))) := by
  rw [parseVal_succ]
  simp only [hskip, reduceIte]
  repeat rw [if_neg (by decide)]

theorem parseVal_step_null (fuel : Nat) {s s' : List Char}
    (hskip : skipWs s = 'n' :: 'u' :: 'l' :: 'l' :: s') :
    parseVal (fuel + 1) s = some (.jnull, s') := by
  rw [parseVal_succ]
  simp only [hskip, reduceIte]
  repeat rw [if_neg (by decide)]

theorem parseVal_step_num (fuel : Nat) {s s' : List Char} {c : Char}
    (hskip : skipWs s = c :: s') (h1 : c ≠ '"') (h2 : c ≠ '[') (h3 : c ≠ '\x7b')
    (h4 : c ≠ 'n') :
    parseVal (fuel + 1) s = (parseNum (c :: s')).map (fun p => (JVal.jnum p.1, p.2)) := by
  rw [parseVal_succ]
  simp only [hskip]
  rw [if_neg h1, if_neg h2, if_neg h3, if_neg h4]

theorem parseItems_step (fuel : Nat) (s : List Char) :
    parseItems (fuel + 1) s =
      (match parseVal fuel s with
       | none => none
       | some (v, rest) =>
           match skipWs rest with
           | [] => none
           | c :: rest2 =>
               if c = ',' then (parseItems fuel rest2).map (fun p => (v :: p.1, p.2))
               else if c = ']' then some ([v], rest2)
               else none) := rfl

theorem parseMembers_step (fuel : Nat) (s : List Char) :
    parseMembers (fuel + 1) s =
      (match skipWs s with
       | [] => none
       | c :: rest =>
           if c = '"' then
             match parseStr rest with
             | none => none
             | some (k, rest2) =>
                 match skipWs rest2 with
                 | [] => none
                 | c2 :: rest3 =>
                     if c2 = ':' then
                       match parseVal fuel rest3 with
                       | none => none
                       | some (v, rest4) =>
                           match skipWs rest4 with
                           | [] => none
                           | c3 :: rest5 =>
                               if c3 = ',' then
                                 (parseMembers fuel rest5).map
                                   (fun p => ((⟨k⟩, v) :: p.1, p.2))
                               else if c3 = '\x7d' then some ([(⟨k⟩, v)], rest5)
                               else none
                     else none
           else none) := rfl

theorem sizeV_pos (v : JVal) : 1 ≤ sizeV v := by
  cases v with
  | jstr s => exact Nat.le_refl 1
  | jnum n => exact Nat.le_refl 1
  | jnull => exact Nat.le_refl 1
  | jarr items => exact Nat.le_add_left 1 (sizeL items)
  | jobj fields => exact Nat.le_add_left 1 (sizeF fields)

theorem ws_not_digit {c : Char} (h : jsonWs c = true) : isDigitCh c = false := by
  simp only [jsonWs, Bool.or_eq_true, decide_eq_true_eq] at h
  rcases h with ((h | h) | h) | h <;> subst h <;> decide

theorem noLeadingDigit_ws_append {w : List Char} (hw : allWs w) {c : Char}
    (hc : isDigitCh c = false) (r : List Char) : noLeadingDigit (w ++ (c :: r)) := by
  cases w with
  | nil =>
      intro x hx
      simp only [List.nil_append, List.head?_cons, Option.some.injEq] at hx
      subst hx
      exact hc
  | cons a as =>
      intro x hx
      simp only [List.cons_append, List.head?_cons, Option.some.injEq] at hx
      subst hx
      exact ws_not_digit (hw a (by simp))

theorem noLeadingDigit_cons {c : Char} (hc : isDigitCh c = false) (r : List Char) :
    noLeadingDigit (c :: r) := by
  intro x hx
  simp only [List.head?_cons, Option.some.injEq] at hx
  subst hx
  exact hc

theorem allWs_append {a b : List Char} (ha : allWs a) (hb : allWs b) : allWs (a ++ b) := by
  intro c hc
  rcases List.mem_append.mp hc with h | h
  · exact ha c h
  · exact hb c h

theorem allWs_nl : allWs ['\n'] := by
  intro c hc
  simp only [List.mem_singleton] at hc
  subst hc
  decide

theorem allWs_sp : allWs [' '] := by
  intro c hc
  simp only [List.mem_singleton] at hc
  subst hc
  decide

theorem dumpItems_shape (d : Nat) (x : JVal) (xs : List JVal) :
    ∃ t, dumpItems d (x :: xs) = jsonIndent d ++ (dumpVal d x ++ t) := by
  cases xs with
  | nil => exact ⟨[], by rw [dumpItems_single]; simp⟩
  | cons y ys => exact ⟨',' :: '\n' :: dumpItems d (y :: ys), by rw [dumpItems_cons2]⟩

theorem dumpFields_shape (d : Nat) (f : String × JVal) (fs : List (String × JVal)) :
    ∃ t, dumpFields d (f :: fs) = jsonIndent d ++ ('"' :: t) := by
  obtain ⟨k, v⟩ := f
  cases fs with
  | nil => exact ⟨_, dumpFields_single d k v⟩
  | cons g gs => exact ⟨_, dumpFields_cons2 d k v g gs⟩

theorem parseItems_done (fuel : Nat) {s : List Char} {v : JVal} {rest1 : List Char}
    (hv : parseVal fuel s = some (v, rest1)) {c : Char} {rest2 : List Char}
    (hskip : skipWs rest1 = c :: rest2) :
    parseItems (fuel + 1) s =
      (if c = ',' then (parseItems fuel rest2).map (fun p => (v :: p.1, p.2))
       else if c = ']' then some ([v], rest2) else none) := by
  rw [parseItems_step]
  simp only [hv, hskip]

theorem parseMembers_done (fuel : Nat) {s rest1 : List Char} {k : List Char}
    {rest2 rest3 : List Char} {v : JVal} {rest4 : List Char} {c3 : Char}
    {rest5 : List Char}
    (h1 : skipWs s = '"' :: rest1)
    (h2 : parseStr rest1 = some (k, rest2))
    (h3 : skipWs rest2 = ':' :: rest3)
    (h4 : parseVal fuel rest3 = some (v, rest4))
    (h5 : skipWs rest4 = c3 :: rest5) :
    parseMembers (fuel + 1) s =
      (if c3 = ',' then (parseMembers fuel rest5).map (fun p => ((⟨k⟩, v) :: p.1, p.2))
       else if c3 = '\x7d' then some ([(⟨k⟩, v)], rest5) else none) := by
  rw [parseMembers_step]
  simp only [h1, h2, h3, h4, h5, reduceIte]

/-- The dump/parse round trip, by induction on parser fuel: any value dumped
at any depth, wrapped in leading whitespace and followed by a digit-free tail,
parses back to itself, and likewise for non-empty item and member lists up to
their closing bracket. -/
theorem parse_dump : ∀ fuel : Nat,
    (∀ (v : JVal) (d : Nat) (w rest : List Char), sizeV v ≤ fuel → allWs w →
       noLeadingDigit rest →
       parseVal fuel (w ++ (dumpVal d v ++ rest)) = some (v, rest)) ∧
    (∀ (items : List JVal) (d : Nat) (w w2 rest : List Char), items ≠ [] →
       sizeL items ≤ fuel → allWs w → allWs w2 →
       parseItems fuel (w ++ (dumpItems d items ++ (w2 ++ (']' :: rest)))) =
         some (items, rest)) ∧
    (∀ (fields : List (String × JVal)) (d : Nat) (w w2 rest : List Char),
       fields ≠ [] → sizeF fields ≤ fuel → allWs w → allWs w2 →
       parseMembers fuel (w ++ (dumpFields d fields ++ (w2 ++ ('\x7d' :: rest)))) =
         some (fields, rest)) := by
  intro fuel
  induction fuel with
  | zero =>
      refine ⟨?_, ?_, ?_⟩
      · intro v d w rest hsz _ _
        exact absurd hsz (by have := sizeV_pos v; omega)
      · intro items d w w2 rest hne hsz _ _
        cases items with
        | nil => exact absurd rfl hne
        | cons x xs =>
            have : sizeL (x :: xs) = sizeV x + sizeL xs + 1 := rfl
            omega
      · intro fields d w w2 rest hne hsz _ _
        cases fields with
        | nil => exact absurd rfl hne
        | cons f fs =>
            have : sizeF (f :: fs) = sizeV f.2 + sizeF fs + 1 := rfl
            omega
  | succ fuel ih =>
      obtain ⟨ihV, ihI, ihF⟩ := ih
      refine ⟨?_, ?_, ?_⟩
      · intro v d w rest hsz hw hrest
        cases v with
        | jstr s0 =>
            have hshape : dumpVal d (JVal.jstr s0) ++ rest =
                '"' :: (escapeChars s0.data ++ ('"' :: rest)) := by
              show ('"' :: (escapeChars s0.data ++ ['"'])) ++ rest = _
              simp
            rw [hshape]
            rw [parseVal_step_str fuel (skipWs_ws_cons hw (by decide) _)]
            rw [parseStr_escapeChars]
            rfl
        | jnum n =>
            obtain ⟨dd, tail, hform, hlt⟩ := natChars_head_digit n
            have hd := isDigitCh_digitChar dd hlt
            obtain ⟨hws0, hq, hb, hob, hnn, _, _⟩ := digit_facts _ hd
            have hshape : dumpVal d (JVal.jnum n) ++ rest =
                Nat.digitChar dd :: (tail ++ rest) := by
              rw [dumpVal_jnum, hform]
              rfl
            rw [hshape]
            rw [parseVal_step_num fuel (skipWs_ws_cons hw hws0 _) hq hb hob hnn]
            rw [show Nat.digitChar dd :: (tail ++ rest) = natChars n ++ rest by
              rw [hform, List.cons_append]]
            rw [parseNum_natChars n rest hrest]
            rfl
        | jnull =>
            have hshape : dumpVal d JVal.jnull ++ rest =
                'n' :: ('u' :: ('l' :: ('l' :: rest))) := rfl
            rw [hshape]
            exact parseVal_step_null fuel (skipWs_ws_cons hw (by decide) _)
        | jarr items =>
            cases items with
            | nil =>
                have hshape : dumpVal d (JVal.jarr []) ++ rest =
                    '[' :: (']' :: rest) := rfl
                rw [hshape]
                rw [parseVal_step_arr fuel (skipWs_ws_cons hw (by decide) _)]
                rw [skipWs_nonWs (by decide) rest]
                rfl
            | cons x xs =>
                obtain ⟨c2, cs2, hhead, hws2, hne2, _⟩ := dumpVal_head (d + 1) x
                obtain ⟨t, ht⟩ := dumpItems_shape (d + 1) x xs
                have hshape : dumpVal d (JVal.jarr (x :: xs)) ++ rest =
                    '[' :: ('\n' :: (dumpItems (d + 1) (x :: xs) ++
                      ('\n' :: (jsonIndent d ++ (']' :: rest))))) := by
                  rw [dumpVal_jarr_cons]
                  simp
                rw [hshape]
                rw [parseVal_step_arr fuel (skipWs_ws_cons hw (by decide) _)]
                have hskip2 : skipWs ('\n' :: (dumpItems (d + 1) (x :: xs) ++
                    ('\n' :: (jsonIndent d ++ (']' :: rest))))) =
                    c2 :: (cs2 ++ (t ++ ('\n' :: (jsonIndent d ++ (']' :: rest))))) := by
                  rw [show '\n' :: (dumpItems (d + 1) (x :: xs) ++
                      ('\n' :: (jsonIndent d ++ (']' :: rest)))) =
                      ('\n' :: jsonIndent (d + 1)) ++
                        (c2 :: (cs2 ++ (t ++ ('\n' :: (jsonIndent d ++ (']' :: rest)))))) by
                    rw [ht, hhead]
                    simp]
                  exact skipWs_ws_cons (allWs_newline_indent (d + 1)) hws2 _
                simp only [hskip2]
                rw [if_neg hne2]
                have hszI : sizeL (x :: xs) ≤ fuel := by
                  have : sizeV (JVal.jarr (x :: xs)) = sizeL (x :: xs) + 1 := rfl
                  omega
                have hI := ihI (x :: xs) (d + 1) ['\n'] ('\n' :: jsonIndent d) rest
                  (by simp) hszI allWs_nl (allWs_newline_indent d)
                rw [show (['\n'] : List Char) ++ (dumpItems (d + 1) (x :: xs) ++
                    (('\n' :: jsonIndent d) ++ (']' :: rest))) =
                    '\n' :: (dumpItems (d + 1) (x :: xs) ++
                      ('\n' :: (jsonIndent d ++ (']' :: rest)))) from rfl] at hI
                rw [hI]
                rfl
        | jobj fields =>
            cases fields with
            | nil =>
                have hshape : dumpVal d (JVal.jobj []) ++ rest =
                    '\x7b' :: ('\x7d' :: rest) := rfl
                rw [hshape]
                rw [parseVal_step_obj fuel (skipWs_ws_cons hw (by decide) _)]
                rw [skipWs_nonWs (by decide) rest]
                rfl
            | cons f fs =>
                obtain ⟨t, ht⟩ := dumpFields_shape (d + 1) f fs
                have hshape : dumpVal d (JVal.jobj (f :: fs)) ++ rest =
                    '\x7b' :: ('\n' :: (dumpFields (d + 1) (f :: fs) ++
                      ('\n' :: (jsonIndent d ++ ('\x7d' :: rest))))) := by
                  rw [dumpVal_jobj_cons]
                  simp
                rw [hshape]
                rw [parseVal_step_obj fuel (skipWs_ws_cons hw (by decide) _)]
                have hskip2 : skipWs ('\n' :: (dumpFields (d + 1) (f :: fs) ++
                    ('\n' :: (jsonIndent d ++ ('\x7d' :: rest))))) =
                    '"' :: (t ++ ('\n' :: (jsonIndent d ++ ('\x7d' :: rest)))) := by
                  rw [show '\n' :: (dumpFields (d + 1) (f :: fs) ++
                      ('\n' :: (jsonIndent d ++ ('\x7d' :: rest)))) =
                      ('\n' :: jsonIndent (d + 1)) ++
                        ('"' :: (t ++ ('\n' :: (jsonIndent d ++ ('\x7d' :: rest))))) by
                    rw [ht]
                    simp]
                  exact skipWs_ws_cons (allWs_newline_indent (d + 1)) (by decide) _
                simp only [hskip2]
                rw [if_neg (by decide)]
                have hszF : sizeF (f :: fs) ≤ fuel := by
                  have : sizeV (JVal.jobj (f :: fs)) = sizeF (f :: fs) + 1 := rfl
                  omega
                have hF := ihF (f :: fs) (d + 1) ['\n'] ('\n' :: jsonIndent d) rest
                  (by simp) hszF allWs_nl (allWs_newline_indent d)
                rw [show (['\n'] : List Char) ++ (dumpFields (d + 1) (f :: fs) ++
                    (('\n' :: jsonIndent d) ++ ('\x7d' :: rest))) =
                    '\n' :: (dumpFields (d + 1) (f :: fs) ++
                      ('\n' :: (jsonIndent d ++ ('\x7d' :: rest)))) from rfl] at hF
                rw [hF]
                rfl
      · intro items d w w2 rest hne hsz hw hw2
        cases items with
        | nil => exact absurd rfl hne
        | cons x xs =>
            cases xs with
            | nil =>
                have hs : w ++ (dumpItems d [x] ++ (w2 ++ (']' :: rest))) =
                    (w ++ jsonIndent d) ++ (dumpVal d x ++ (w2 ++ (']' :: rest))) := by
                  rw [dumpItems_single]
                  simp
                rw [hs]
                have hszx : sizeV x ≤ fuel := by
                  have : sizeL [x] = sizeV x + sizeL [] + 1 := rfl
                  have : sizeL ([] : List JVal) = 0 := rfl
                  omega
                have hv := ihV x d (w ++ jsonIndent d) (w2 ++ (']' :: rest)) hszx
                  (allWs_append hw (allWs_indent d))
                  (noLeadingDigit_ws_append hw2 (by decide) rest)
                rw [parseItems_done fuel hv (skipWs_ws_cons hw2 (by decide) rest)]
                rw [if_neg (by decide), if_pos rfl]
            | cons y ys =>
                have hs : w ++ (dumpItems d (x :: y :: ys) ++ (w2 ++ (']' :: rest))) =
                    (w ++ jsonIndent d) ++ (dumpVal d x ++ (',' :: ('\n' ::
                      (dumpItems d (y :: ys) ++ (w2 ++ (']' :: rest)))))) := by
                  rw [dumpItems_cons2]
                  simp
                rw [hs]
                have hsz1 : sizeL (x :: y :: ys) =
                    sizeV x + (sizeV y + sizeL ys + 1) + 1 := rfl
                have hszx : sizeV x ≤ fuel := by omega
                have hszys : sizeL (y :: ys) ≤ fuel := by
                  have : sizeL (y :: ys) = sizeV y + sizeL ys + 1 := rfl
                  omega
                have hv := ihV x d (w ++ jsonIndent d) (',' :: ('\n' ::
                    (dumpItems d (y :: ys) ++ (w2 ++ (']' :: rest))))) hszx
                  (allWs_append hw (allWs_indent d))
                  (noLeadingDigit_cons (by decide) _)
                rw [parseItems_done fuel hv (skipWs_nonWs (by decide) _)]
                rw [if_pos rfl]
                have hI := ihI (y :: ys) d ['\n'] w2 rest (by simp) hszys allWs_nl hw2
                rw [show (['\n'] : List Char) ++ (dumpItems d (y :: ys) ++
                    (w2 ++ (']' :: rest))) =
                    '\n' :: (dumpItems d (y :: ys) ++ (w2 ++ (']' :: rest))) from rfl] at hI
                rw [hI]
                rfl
      · intro fields d w w2 rest hne hsz hw hw2
        cases fields with
        | nil => exact absurd rfl hne
        | cons f fs =>
            obtain ⟨k, v⟩ := f
            cases fs with
            | nil =>
                have hs : w ++ (dumpFields d [(k, v)] ++ (w2 ++ ('\x7d' :: rest))) =
                    (w ++ jsonIndent d) ++ ('"' :: (escapeChars k.data ++ ('"' ::
                      (':' :: (' ' :: (dumpVal d v ++ (w2 ++ ('\x7d' :: rest)))))))) := by
                  rw [dumpFields_single]
                  simp
                rw [hs]
                have hszv : sizeV v ≤ fuel := by
                  have : sizeF [(k, v)] = sizeV v + sizeF [] + 1 := rfl
                  have : sizeF ([] : List (String × JVal)) = 0 := rfl
                  omega
                have h4 := ihV v d [' '] (w2 ++ ('\x7d' :: rest)) hszv allWs_sp
                  (noLeadingDigit_ws_append hw2 (by decide) rest)
                rw [show ([' '] : List Char) ++ (dumpVal d v ++ (w2 ++ ('\x7d' :: rest))) =
                    ' ' :: (dumpVal d v ++ (w2 ++ ('\x7d' :: rest))) from rfl] at h4
                rw [parseMembers_done fuel
                  (skipWs_ws_cons (allWs_append hw (allWs_indent d)) (by decide) _)
                  (parseStr_escapeChars k.data _)
                  (skipWs_nonWs (by decide) _) h4
                  (skipWs_ws_cons hw2 (by decide) rest)]
                rw [if_neg (by decide), if_pos rfl]
            | cons g gs =>
                have hs : w ++ (dumpFields d ((k, v) :: g :: gs) ++
                      (w2 ++ ('\x7d' :: rest))) =
                    (w ++ jsonIndent d) ++ ('"' :: (escapeChars k.data ++ ('"' ::
                      (':' :: (' ' :: (dumpVal d v ++ (',' :: ('\n' ::
                        (dumpFields d (g :: gs) ++ (w2 ++ ('\x7d' :: rest))))))))))) := by
                  rw [dumpFields_cons2]
                  simp
                rw [hs]
                have hsz1 : sizeF ((k, v) :: g :: gs) =
                    sizeV v + (sizeV g.2 + sizeF gs + 1) + 1 := rfl
                have hszv : sizeV v ≤ fuel := by omega
                have hszgs : sizeF (g :: gs) ≤ fuel := by
                  have : sizeF (g :: gs) = sizeV g.2 + sizeF gs + 1 := rfl
                  omega
                have h4 := ihV v d [' '] (',' :: ('\n' ::
                    (dumpFields d (g :: gs) ++ (w2 ++ ('\x7d' :: rest))))) hszv allWs_sp
                  (noLeadingDigit_cons (by decide) _)
                rw [show ([' '] : List Char) ++ (dumpVal d v ++ (',' :: ('\n' ::
                    (dumpFields d (g :: gs) ++ (w2 ++ ('\x7d' :: rest)))))) =
                    ' ' :: (dumpVal d v ++ (',' :: ('\n' ::
                      (dumpFields d (g :: gs) ++ (w2 ++ ('\x7d' :: rest)))))) from rfl] at h4
                rw [parseMembers_done fuel
                  (skipWs_ws_cons (allWs_append hw (allWs_indent d)) (by decide) _)
                  (parseStr_escapeChars k.data _)
                  (skipWs_nonWs (by decide) _) h4
                  (skipWs_nonWs (by decide) _)]
                rw [if_pos rfl]
                have hF := ihF (g :: gs) d ['\n'] w2 rest (by simp) hszgs allWs_nl hw2
                rw [show (['\n'] : List Char) ++ (dumpFields d (g :: gs) ++
                    (w2 ++ ('\x7d' :: rest))) =
                    '\n' :: (dumpFields d (g :: gs) ++ (w2 ++ ('\x7d' :: rest))) from rfl] at hF
                rw [hF]
                rfl

/-- The fuel a value needs is bounded by its dump's length (plus one for
lists), so `jsonParse`'s fuel of length-plus-one always suffices. -/
theorem size_le_dump : ∀ fuel : Nat,
    (∀ (v : JVal) (d : Nat), sizeV v ≤ fuel → sizeV v ≤ (dumpVal d v).length) ∧
    (∀ (items : List JVal) (d : Nat), sizeL items ≤ fuel →
       sizeL items ≤ (dumpItems d items).length + 1) ∧
    (∀ (fields : List (String × JVal)) (d : Nat), sizeF fields ≤ fuel →
       sizeF fields ≤ (dumpFields d fields).length + 1) := by
  intro fuel
  induction fuel with
  | zero =>
      refine ⟨?_, ?_, ?_⟩
      · intro v d hsz
        exact absurd hsz (by have := sizeV_pos v; omega)
      · intro items d hsz
        cases items with
        | nil => exact Nat.zero_le _
        | cons x xs =>
            have : sizeL (x :: xs) = sizeV x + sizeL xs + 1 := rfl
            omega
      · intro fields d hsz
        cases fields with
        | nil => exact Nat.zero_le _
        | cons f fs =>
            have : sizeF (f :: fs) = sizeV f.2 + sizeF fs + 1 := rfl
            omega
  | succ fuel ih =>
      obtain ⟨ihV, ihI, ihF⟩ := ih
      refine ⟨?_, ?_, ?_⟩
      · intro v d hsz
        cases v with
        | jstr s0 =>
            rw [show dumpVal d (JVal.jstr s0) = '"' :: (escapeChars s0.data ++ ['"'])
              from rfl, show sizeV (JVal.jstr s0) = 1 from rfl]
            simp
        | jnum n =>
            obtain ⟨dd, tail, hform, _⟩ := natChars_head_digit n
            rw [dumpVal_jnum, hform, show sizeV (JVal.jnum n) = 1 from rfl]
            simp
        | jnull =>
            rw [show dumpVal d JVal.jnull = ['n', 'u', 'l', 'l'] from rfl,
              show sizeV JVal.jnull = 1 from rfl]
            decide
        | jarr items =>
            cases items with
            | nil =>
                rw [show dumpVal d (JVal.jarr []) = ['[', ']'] from rfl,
                  show sizeV (JVal.jarr []) = 1 from rfl]
                decide
            | cons x xs =>
                have h1 : sizeL (x :: xs) ≤ fuel := by
                  have : sizeV (JVal.jarr (x :: xs)) = sizeL (x :: xs) + 1 := rfl
                  omega
                have h2 := ihI (x :: xs) (d + 1) h1
                rw [show sizeV (JVal.jarr (x :: xs)) = sizeL (x :: xs) + 1 from rfl,
                  dumpVal_jarr_cons]
                simp only [List.length_cons, List.length_append, jsonIndent,
                  List.length_replicate, List.length_nil]
                omega
        | jobj fields =>
            cases fields with
            | nil =>
                rw [show dumpVal d (JVal.jobj []) = ['\x7b', '\x7d'] from rfl,
                  show sizeV (JVal.jobj []) = 1 from rfl]
                decide
            | cons f fs =>
                have h1 : sizeF (f :: fs) ≤ fuel := by
                  have : sizeV (JVal.jobj (f :: fs)) = sizeF (f :: fs) + 1 := rfl
                  omega
                have h2 := ihF (f :: fs) (d + 1) h1
                rw [show sizeV (JVal.jobj (f :: fs)) = sizeF (f :: fs) + 1 from rfl,
                  dumpVal_jobj_cons]
                simp only [List.length_cons, List.length_append, jsonIndent,
                  List.length_replicate, List.length_nil]
                omega
      · intro items d hsz
        cases items with
        | nil => exact Nat.zero_le _
        | cons x xs =>
            cases xs with
            | nil =>
                have h0 : sizeL [x] = sizeV x + 0 + 1 := rfl
                have hx : sizeV x ≤ fuel := by omega
                have h2 := ihV x d hx
                rw [h0, dumpItems_single]
                simp only [List.length_append, jsonIndent, List.length_replicate]
                omega
            | cons y ys =>
                have h0 : sizeL (x :: y :: ys) = sizeV x + sizeL (y :: ys) + 1 := rfl
                have hy1 : sizeL (y :: ys) = sizeV y + sizeL ys + 1 := rfl
                have hx : sizeV x ≤ fuel := by omega
                have hys : sizeL (y :: ys) ≤ fuel := by
                  have := sizeV_pos x
                  omega
                have h2 := ihV x d hx
                have h3 := ihI (y :: ys) d hys
                rw [h0, dumpItems_cons2]
                simp only [List.length_append, List.length_cons, jsonIndent,
                  List.length_replicate]
                omega
      · intro fields d hsz
        cases fields with
        | nil => exact Nat.zero_le _
        | cons f fs =>
            obtain ⟨k, v⟩ := f
            cases fs with
            | nil =>
                have h0 : sizeF [(k, v)] = sizeV v + 0 + 1 := rfl
                have hv : sizeV v ≤ fuel := by omega
                have h2 := ihV v d hv
                rw [h0, dumpFields_single]
                simp only [List.length_append, List.length_cons, jsonIndent,
                  List.length_replicate]
                omega
            | cons g gs =>
                have h0 : sizeF ((k, v) :: g :: gs) = sizeV v + sizeF (g :: gs) + 1 := rfl
                have hg1 : sizeF (g :: gs) = sizeV g.2 + sizeF gs + 1 := rfl
                have hv : sizeV v ≤ fuel := by omega
                have hgs : sizeF (g :: gs) ≤ fuel := by
                  have := sizeV_pos v
                  omega
                have h2 := ihV v d hv
                have h3 := ihF (g :: gs) d hgs
                rw [h0, dumpFields_cons2]
                simp only [List.length_append, List.length_cons, jsonIndent,
                  List.length_replicate]
                omega

theorem sizeV_le_dumpVal (v : JVal) (d : Nat) : sizeV v ≤ (dumpVal d v).length :=
  (size_le_dump (sizeV v)).1 v d (Nat.le_refl _)

/-- Parsing the formatter's output recovers exactly the document value. -/
theorem jsonParse_jsonFormat (tasks : List Task) :
    jsonParse (jsonFormat tasks) = some (jsonDocument tasks) := by
  rw [jsonParse, jsonFormat]
  have hb : sizeV (jsonDocument tasks) ≤ (dumpVal 0 (jsonDocument tasks)).length + 1 :=
    Nat.le_trans (sizeV_le_dumpVal _ 0) (Nat.le_succ _)
  have h := (parse_dump ((dumpVal 0 (jsonDocument tasks)).length + 1)).1
    (jsonDocument tasks) 0 [] [] hb (fun c hc => absurd hc (by simp))
    (fun c hc => by simp at hc)
  rw [show ([] : List Char) ++ (dumpVal 0 (jsonDocument tasks) ++ []) =
      dumpVal 0 (jsonDocument tasks) by simp] at h
  rw [show (⟨dumpVal 0 (jsonDocument tasks)⟩ : String).data =
      dumpVal 0 (jsonDocument tasks) from rfl]
  rw [h]
  rfl

/-! ### C6: the JSON formatter round trip -/

/-- C6.  Parsing the JSON formatter's output yields exactly the document
array with one object per task in order; each object reproduces the task's
file, line, marker and text under those keys, carries an attribution key
(author, author_email, commit_hash, commit_date, commit_message) exactly when
the corresponding field is populated (the key's lookup equals the field
mapped into a JSON string, so it is absent when the field is `none`), and
holds no null value anywhere; and the empty task list formats to `"[]"`. -/
theorem C6_json_round_trip_spec (tasks : List Task) :
    jsonParse (jsonFormat tasks) = some (jsonDocument tasks) ∧
    jsonDocument tasks = JVal.jarr (tasks.map (fun t => JVal.jobj t.to_dict)) ∧
    (∀ t ∈ tasks,
      t.to_dict.lookup "file" = some (JVal.jstr t.file) ∧
      t.to_dict.lookup "line" = some (JVal.jnum t.line) ∧
      t.to_dict.lookup "marker" = some (JVal.jstr t.marker) ∧
      t.to_dict.lookup "text" = some (JVal.jstr t.text) ∧
      t.to_dict.lookup "author" = t.author.map JVal.jstr ∧
      t.to_dict.lookup "author_email" = t.author_email.map JVal.jstr ∧
      t.to_dict.lookup "commit_hash" = t.commit_hash.map JVal.jstr ∧
      t.to_dict.lookup "commit_date" = t.commit_date.map JVal.jstr ∧
      t.to_dict.lookup "commit_message" = t.commit_message.map JVal.jstr ∧
      ∀ kv ∈ t.to_dict, kv.2 ≠ JVal.jnull) ∧
    jsonFormat [] = "[]" := by
  refine ⟨jsonParse_jsonFormat tasks, rfl, ?_, rfl⟩
  intro t _
  obtain ⟨f, l, m, x, a, ae, ch, cd, cm⟩ := t
  cases a <;> cases ae <;> cases ch <;> cases cd <;> cases cm <;>
    simp [Task.to_dict, List.lookup]

/-- A concrete task with a populated author field, for the C6 witness. -/
def sampleTask : Task :=
  { file := "a.py", line := 3, marker := "TODO", text := "x", author := some "alice" }

theorem C6_json_round_trip_spec_witness :
    jsonParse (jsonFormat [sampleTask]) = some (jsonDocument [sampleTask]) ∧
    (Task.to_dict sampleTask).lookup "author" = some (JVal.jstr "alice") :=
  ⟨(C6_json_round_trip_spec [sampleTask]).1,
   ((C6_json_round_trip_spec [sampleTask]).2.2.1 sampleTask (by simp)).2.2.2.2.1⟩

end Tickle
